import Mathlib

/-!
Verification of the incremental server renderer
(`src/renderers/dom/server/ReactServerRenderingAsync.js`).

The JavaScript module is shallowly embedded below.  Mutable tree-position
records become explicit state passing (`Tree` values are threaded through
`renderImpl` and returned updated), the closure capturing
`childTextProcessed` for newline-eating tags becomes the explicit
`Filter` state machine, exceptions become `Except RErr`, and the possibly
diverging component-resolution / recursive-descent loops take a fuel
parameter (`RErr.fuel` marks fuel exhaustion, which the JS cannot observe:
every theorem below is stated relative to runs that succeed).

Two instrumentation fields accompany the faithful `text` output:
`RResult.pieces` records every atomic string emission (opening tags,
closing tags, individual filtered child texts) so that suspension
boundaries can be stated precisely, and the resolver-invocation count is
returned alongside each result so that resolve-once properties can be
stated.  `text` itself is always computed exactly the way the source
computes it.
-/

namespace ReactSSR

/-- A context object: key to value bindings.  A value of `none` models a
key bound to JS `undefined`; `jsGet` reads a key the way `context[name]`
does (first binding wins, missing key reads as `undefined`). -/
abbrev Ctx := List (String × Option String)

/-- `context[name]` in JS: the bound value, or `undefined` (`none`) when
the key is absent. -/
def jsGet (ctx : Ctx) (k : String) : Option String :=
  match ctx.lookup k with
  | some v => v
  | none => none

/-- `Object.assign({}, parent, child)`: child bindings shadow parent
bindings.  With `jsGet` taking the first matching binding, prepending the
child context realizes exactly that shadowing. -/
def jsAssign (parent child : Ctx) : Ctx := child ++ parent

mutual

/-- A JS value that can occur in the `children` prop: the primitive
values, `null`/`undefined`/booleans, a nested element, or an array. -/
inductive Child where
  | undef : Child
  | null : Child
  | bool : Bool → Child
  | str : String → Child
  | num : Int → Child
  | elem : Element → Child
  | arr : List Child → Child

/-- The JS value held in `tree.element`: `null`, `false` and `undefined`
occur as resolution results; otherwise an element object whose type is a
tag-name string (`host`) or a component (`comp`).  A component's `props`
are baked into its behavior functions, since the renderer only ever
passes `element.props` to the component itself. -/
inductive Element where
  | enull : Element
  | efalse : Element
  | eundef : Element
  | host : String → Props → Element
  | comp : Component → Element

/-- The props object of a host element: the `children` prop, the
`dangerouslySetInnerHTML.__html` string when that prop is present, and
the remaining attribute-like props as name/value pairs (the embedding
restricts attribute values to strings). -/
inductive Props where
  | mk : Child → Option String → List (String × String) → Props

/-- A component occupying an element's `type` (together with that
element's props).  Fields: `contextTypes` and `childContextTypes` static
declarations (`none` models an absent declaration), whether the
instance has a `getChildContext` method, that method's behavior, and
`run` — the composite of construction, `componentWillMount`, the
synchronous `setState` queue draining and `render` for class components,
or the plain function call for stateless components.  Both behavior
functions receive the filtered context the renderer exposes. -/
inductive Component where
  | mk : Option (List String) → Option (List String) → Bool →
         (Ctx → Ctx) → (Ctx → Element) → Component

end

def Props.children : Props → Child
  | .mk c _ _ => c

def Props.dangerouslySetInnerHTML : Props → Option String
  | .mk _ d _ => d

def Props.attrs : Props → List (String × String)
  | .mk _ _ a => a

def Component.contextTypes : Component → Option (List String)
  | .mk ct _ _ _ _ => ct

def Component.childContextTypes : Component → Option (List String)
  | .mk _ cct _ _ _ => cct

def Component.hasGetChildContext : Component → Bool
  | .mk _ _ h _ _ => h

def Component.getChildContext : Component → (Ctx → Ctx)
  | .mk _ _ _ g _ => g

def Component.run : Component → (Ctx → Element)
  | .mk _ _ _ _ r => r

/-- The per-position output filter (`tree.filter`), made explicit: the
closure for newline-eating tags carries the mutable `childTextProcessed`
flag, modelled as the `nlFresh`/`nlDone` states.  `unset` is the absent
field before initialization. -/
inductive Filter where
  | unset : Filter
  | identity : Filter
  | nlFresh : Filter
  | nlDone : Filter
deriving DecidableEq

/-- A primitive entry in a materialized children list.  `pother` covers
the values (`true`, `undefined`) that `addChildrenToArray` pushes
unchanged and on which the child loop later crashes (in strict mode,
`renderImpl` applied to a non-object child throws). -/
inductive Prim where
  | pstr : String → Prim
  | pnum : Int → Prim
  | pother : Prim
deriving DecidableEq

mutual

/-- A tree-position record: `element`, `root`, `context`, the
`childIndex` field (`none` models the field being absent, the
`hasOwnProperty` check), the materialized `children` list (`none` models
both the absent field and the `null` written when the position is
done), and the output filter state. -/
inductive Tree where
  | mk : Element → Bool → Ctx → Option Nat → Option (List TChild) → Filter → Tree

/-- An entry of a materialized children list: a primitive value or a
nested tree position. -/
inductive TChild where
  | prim : Prim → TChild
  | node : Tree → TChild

end

def Tree.element : Tree → Element
  | .mk e _ _ _ _ _ => e

def Tree.root : Tree → Bool
  | .mk _ r _ _ _ _ => r

def Tree.context : Tree → Ctx
  | .mk _ _ c _ _ _ => c

def Tree.childIndex : Tree → Option Nat
  | .mk _ _ _ i _ _ => i

def Tree.children : Tree → Option (List TChild)
  | .mk _ _ _ _ k _ => k

def Tree.filter : Tree → Filter
  | .mk _ _ _ _ _ f => f

/-- `tree.element = element; tree.context = context` after resolution. -/
def Tree.withResolved : Tree → Element → Ctx → Tree
  | .mk _ r _ i k f, e, c => .mk e r c i k f

/-- `tree.filter = ...` initialization. -/
def Tree.withFilter : Tree → Filter → Tree
  | .mk e r c i k _, f => .mk e r c i k f

/-- Materialization: `tree.children = [...]`. -/
def Tree.withKids : Tree → List TChild → Tree
  | .mk e r c i _ f, k => .mk e r c i (some k) f

/-- State after the child loop: store `childIndex` and the filter, and
either release the children list (`done`) or store the updated list. -/
def Tree.afterLoop : Tree → Nat → Filter → Option (List TChild) → Tree
  | .mk e r c _ _ _, i, f, k => .mk e r c (some i) k f

/-- Errors: `fuel` is exhaustion of the embedding's fuel (no JS
counterpart); the others model the `throw new Error(...)` sites and the
strict-mode crashes on malformed children. -/
inductive RErr where
  | fuel : RErr
  | undefinedElement : RErr
  | noChildContextTypes : RErr
  | undeclaredKey : String → RErr
  | badChild : RErr
  | nullChildren : RErr
  | filterOnNumber : RErr
deriving DecidableEq

/-- The result of a `renderImpl` call: the `done` flag and `text` exactly
as the source returns them, plus the `pieces` instrumentation (the atomic
string emissions whose concatenation is `text`). -/
structure RResult where
  done : Bool
  text : String
  pieces : List String

/-- The outcome of the per-child loop of `renderImpl` (lines 188-211):
the updated children list and child index, the filter state, the loop's
`done`/`text` outcome, the atomic pieces emitted by the loop, and the
number of resolver invocations performed while rendering child
subtrees. -/
structure LoopOut where
  children : List TChild
  childIndex : Nat
  filter : Filter
  done : Bool
  text : String
  pieces : List String
  count : Nat

/-! ## Markup formatting helpers -/

/-- Modelled from the spec: `escapeTextContentForBrowser` is required
from outside this corpus; the spec (sections 4.2/6) states that `&`,
`<`, `>`, `"` and `'` are HTML-escaped in text content and attribute
values.  The replacement entities are the standard ones. -/
def escapeHtmlChar (c : Char) : String :=
  if c = '&' then "&amp;"
  else if c = '<' then "&lt;"
  else if c = '>' then "&gt;"
  else if c = '"' then "&quot;"
  else if c = '\'' then "&#x27;"
  else String.singleton c

/-- Modelled from the spec: see `escapeHtmlChar`. -/
def escapeTextContentForBrowser (s : String) : String :=
  s.data.foldl (fun acc c => acc ++ escapeHtmlChar c) ""

/-- Modelled from the spec: the renderer skips every
"event-handler-shaped prop name" (`registrationNameModules` of the event
plugin registry, a collaborator outside this corpus); event registration
names are the `on`-prefixed camel-cased handler props. -/
def isEventPropName (n : String) : Bool :=
  match n.data with
  | 'o' :: 'n' :: _ => true
  | _ => false

/-- `rawTag.toLowerCase()` (line 128) for the ASCII tag names this
renderer deals with: character-wise lowering. -/
def jsToLower (s : String) : String := ⟨s.data.map Char.toLower⟩

/-- Modelled from the spec: `DOMPropertyOperations.createMarkupForProperty`
is a collaborator outside this corpus; per spec section 4.2 ordinary
values render as `name="escaped-string-value"`.  The embedding restricts
prop values to strings, so the boolean/omitted cases of the spec do not
arise. -/
def createMarkupForProperty (name value : String) : String :=
  name ++ "=\"" ++ escapeTextContentForBrowser value ++ "\""

/-- The `voidTags` whitelist (lines 40-57). -/
def voidTags : List String :=
  ["area", "base", "br", "col", "embed", "hr", "img", "input", "keygen",
   "link", "meta", "param", "source", "track", "wbr"]

/-- The `newlineEatingTags` whitelist (lines 60-64). -/
def newlineEatingTags : List String := ["listing", "pre", "textarea"]

/-- JS `a || b` for possibly absent strings (used by `getSelectValues`):
the empty string is falsy. -/
def jsOrStr : Option String → Option String → Option String
  | some s, b => if s == "" then b else some s
  | none, b => b

/-- `getSelectValues` (lines 219-228): for a `select` tag carrying a
`value` or `defaultValue` prop, the effective selected values, normalized
to an array.  A `none` entry models the JS `undefined` that ends up in
the array when both props are falsy. -/
def getSelectValues (tag : String) (p : Props) : Option (List (Option String)) :=
  if tag == "select" ∧ ((p.attrs.lookup "value").isSome ∨ (p.attrs.lookup "defaultValue").isSome)
  then some [jsOrStr (p.attrs.lookup "value") (p.attrs.lookup "defaultValue")]
  else none

/-- `propsToAttributes` (lines 312-360).  The `option`/`selected` logic
and the skip/rename rules are from the source; `createMarkupForProperty`
and the event-name check are spec-modelled collaborators (see above).
The `style` special case (a collaborator serializing style objects) does
not arise because the embedding's attribute values are strings. -/
def propsToAttributes (p : Props) (tagName : String)
    (selectValues : Option (List (Option String))) : String :=
  let sel :=
    if tagName == "option" then
      match selectValues with
      | some svs =>
        match p.attrs.lookup "value" with
        | some ov => if ov ≠ "" ∧ svs.contains (some ov) then " selected" else ""
        | none => ""
      | none => ""
    else ""
  sel ++ p.attrs.foldl (fun acc nv =>
    if nv.1 == "children" ∨ nv.1 == "dangerouslySetInnerHTML" ∨ nv.1 == "ref"
        ∨ ((tagName == "textarea" ∨ tagName == "select")
            ∧ (nv.1 == "value" ∨ nv.1 == "defaultValue"))
        ∨ isEventPropName nv.1 then acc
    else
      let nm := if nv.1 == "defaultValue" then "value"
                else if nv.1 == "defaultChecked" then "checked"
                else nv.1
      acc ++ " " ++ createMarkupForProperty nm nv.2) ""

/-! ## Component resolution (`getNativeComponent`, lines 246-310) -/

/-- `filterContext` (lines 304-310): one binding per declared key, each
read from the ancestor context (`undefined` when the ancestor provided
none). -/
def filterContext (ctx : Ctx) (types : List String) : Ctx :=
  types.map fun n => (n, jsGet ctx n)

/-- The context exposed to a component (lines 252-255): the ancestor
context filtered to the declared `contextTypes` keys, or the empty
object when the component declares none. -/
def exposedContext (c : Component) (ctx : Ctx) : Ctx :=
  match c.contextTypes with
  | some types => filterContext ctx types
  | none => []

/-- One iteration of the `getNativeComponent` while loop (lines 250-299)
for a component-typed element: expose the filtered context, validate and
merge the child context, and produce the component's rendered element.
The declaration check precedes the `getChildContext` call and the key
validation, as in the source. -/
def resolveStep (c : Component) (ctx : Ctx) : Except RErr (Element × Ctx) :=
  let contextToExpose := exposedContext c ctx
  if c.hasGetChildContext then
    match c.childContextTypes with
    | none => .error .noChildContextTypes
    | some declared =>
      let childContext := c.getChildContext contextToExpose
      match childContext.find? (fun kv => !declared.contains kv.1) with
      | some kv => .error (.undeclaredKey kv.1)
      | none => .ok (c.run contextToExpose, jsAssign ctx childContext)
  else .ok (c.run contextToExpose, ctx)

/-- A resolved element: what `getNativeComponent` can leave in
`tree.element` — never a component.  (An element whose `type` is a
number also exits the loop and then hits the line-126 throw; the
embedding's `Element` has no such constructor.) -/
inductive Resolved where
  | rnull : Resolved
  | rfalse : Resolved
  | rundef : Resolved
  | rhost : String → Props → Resolved

def Resolved.toElement : Resolved → Element
  | .rnull => .enull
  | .rfalse => .efalse
  | .rundef => .eundef
  | .rhost t p => .host t p

/-- `getNativeComponent` (lines 246-302): repeat `resolveStep` until the
element is no longer component-typed.  The returned `Nat` instruments
the number of resolver invocations (component instantiations), as the
resolve-once property is stated about that count. -/
def getNativeComponent : Nat → Element → Ctx → Except RErr (Resolved × Ctx × Nat)
  | _, .enull, ctx => .ok (.rnull, ctx, 0)
  | _, .efalse, ctx => .ok (.rfalse, ctx, 0)
  | _, .eundef, ctx => .ok (.rundef, ctx, 0)
  | _, .host t p, ctx => .ok (.rhost t p, ctx, 0)
  | 0, .comp _, _ => .error .fuel
  | fuel + 1, .comp c, ctx =>
    match resolveStep c ctx with
    | .error e => .error e
    | .ok (e', ctx') =>
      match getNativeComponent fuel e' ctx' with
      | .error e => .error e
      | .ok (r, ctx'', n) => .ok (r, ctx'', n + 1)

/-! ## Children materialization -/

/-- JS truthiness of a `children` prop value (`!props.children`,
line 170). -/
def childFalsy : Child → Bool
  | .undef => true
  | .null => true
  | .bool b => !b
  | .str s => s == ""
  | .num n => n == 0
  | .elem _ => false
  | .arr _ => false

/-- The void-tag guard on children (line 131):
`children === '' || children === null || children === undefined`. -/
def isEmptyish : Child → Bool
  | .str s => s == ""
  | .null => true
  | .undef => true
  | _ => false

/-- `props.children.length ? props.children : [props.children]`
(line 183).  Only arrays, elements and `true` can reach this point: a
falsy `children` returned at line 170 and a string or number at
line 175, so the `.length` of a non-array is `undefined` (falsy) here. -/
def toChildList : Child → List Child
  | .arr xs => if xs.length ≠ 0 then xs else [.arr []]
  | c => [c]

mutual

/-- `addChildrenToArray` (lines 230-244): flatten nested arrays, drop
`null` and `false` children in place, wrap element children in fresh
tree positions carrying the current context, and keep the remaining
primitives.  `true` and `undefined` are pushed unchanged (the JS `else`
branch) and crash later when the child loop reaches them. -/
def addChildrenToArray : List Child → Ctx → List TChild
  | [], _ => []
  | c :: rest, ctx => addOneChild c ctx ++ addChildrenToArray rest ctx

def addOneChild : Child → Ctx → List TChild
  | .arr xs, ctx => addChildrenToArray xs ctx
  | .null, _ => []
  | .bool false, _ => []
  | .elem e, ctx => [.node (Tree.mk e false ctx none none .unset)]
  | .str s, _ => [.prim (.pstr s)]
  | .num n, _ => [.prim (.pnum n)]
  | .bool true, _ => [.prim .pother]
  | .undef, _ => [.prim .pother]

end

/-! ## The output filter -/

/-- Apply `tree.filter` to a string, returning the updated filter state
(lines 142-158).  `identity` is `identityFn`; `nlFresh`/`nlDone` are
the newline-eating closure before/after `childTextProcessed` is set.
The `unset` state is never applied (the filter is initialized before
first use); it behaves as the identity for totality. -/
def applyFilter : Filter → String → Filter × String
  | .unset, t => (.unset, t)
  | .identity, t => (.identity, t)
  | .nlDone, t => (.nlDone, t)
  | .nlFresh, t =>
    if t.length = 0 then (.nlFresh, t)
    else (.nlDone, if t.data.head? = some '\n' then "\n" ++ t else t)

/-- `applyFilter` applied to a list of pieces in sequence (the
instrumented piecewise counterpart of filtering a child's whole text). -/
def applyFilterList : Filter → List String → Filter × List String
  | f, [] => (f, [])
  | f, t :: ts =>
    let (f', t') := applyFilter f t
    let (f'', ts') := applyFilterList f' ts
    (f'', t' :: ts')

/-- Filter initialization (lines 142-158). -/
def initFilter (f : Filter) (tag : String) : Filter :=
  match f with
  | .unset => if newlineEatingTags.contains tag then .nlFresh else .identity
  | f => f

/-! ## Budgets -/

/-- The `length` argument: `none` is `Infinity`. -/
abbrev Budget := Option Nat

/-- `text.length >= length` (line 189); always false against
`Infinity`. -/
def budgetReached (n : Nat) : Budget → Bool
  | none => false
  | some k => n ≥ k

/-- `length - text.length` (line 205).  At every call site the loop has
already checked `text.length < length`, so the truncating `Nat`
subtraction agrees with the JS subtraction. -/
def budgetSub : Budget → Nat → Budget
  | none, _ => none
  | some k, n => some (k - n)

/-- String form of a number child (JS coerces numbers to their decimal
representation when concatenated or escaped). -/
def primText : Prim → String
  | .pstr s => s
  | .pnum n => toString n
  | .pother => ""

/-- A primitive child as emitted inside the child loop (lines 195-199):
escaped in static mode, wrapped unescaped in the `react-text` comment
pair otherwise. -/
def primPiece (static : Bool) (p : Prim) : String :=
  if static then escapeTextContentForBrowser (primText p)
  else "<!-- react-text -->" ++ primText p ++ "<!-- /react-text -->"

/-! ## The incremental renderer (`renderImpl`, lines 101-215)

Both functions take a fuel argument that strictly decreases on every
recursive call, so they reduce definitionally; `RErr.fuel` is returned
on exhaustion.  `renderChildren` is the `for` loop over
`tree.children` (lines 188-211): it receives the loop-entry state
(children list, start index, accumulated text — which already contains
the opening tag on the first call — and the filter state) and returns
the mutated loop state together with the loop's outcome.  `pieces` and
`count` in the results are instrumentation; `text` and all control flow
follow the source. -/

/-- The `data-reactroot` marker emitted on the root element of a
non-static render (line 127). -/
def rootAttrs (root : Bool) : String :=
  if root then " data-reactroot=\"\"" else ""

/-- The `for` loop over `tree.children` (lines 188-211), parameterized
by the renderer used for child subtrees (`renderImpl` at the enclosing
call's remaining fuel) and by its own iteration fuel.  See `renderImpl`
for the argument conventions. -/
def renderChildren (rImpl : Tree → Budget → Bool → Option (List (Option String)) →
    Except RErr (Tree × RResult × Nat)) :
    Nat → List TChild → Nat → String → Filter → Budget → Bool →
    Option (List (Option String)) → String → Props → Except RErr LoopOut
  | 0, _, _, _, _, _, _, _, _, _ => .error .fuel
  | fuel + 1, kids, i, text, filt, length, makeStaticMarkup, selectValues, tag, props =>
    if h : i < kids.length then
      if budgetReached text.length length then
        .ok ⟨kids, i, filt, false, text, [], 0⟩
      else
        match kids[i] with
        | .prim .pother => .error .badChild
        | .prim p =>
          let (filt', out) := applyFilter filt (primPiece makeStaticMarkup p)
          match renderChildren rImpl fuel kids (i + 1) (text ++ out) filt' length
              makeStaticMarkup selectValues tag props with
          | .error e => .error e
          | .ok lo => .ok { lo with pieces := out :: lo.pieces }
        | .node t =>
          let sv := if selectValues.isSome then selectValues else getSelectValues tag props
          match rImpl t (budgetSub length text.length) makeStaticMarkup sv with
          | .error e => .error e
          | .ok (t', res, n) =>
            let (filt', whole) := applyFilter filt res.text
            let outs := (applyFilterList filt res.pieces).2
            let kids' := kids.set i (.node t')
            if res.done then
              match renderChildren rImpl fuel kids' (i + 1) (text ++ whole) filt' length
                  makeStaticMarkup sv tag props with
              | .error e => .error e
              | .ok lo => .ok { lo with pieces := outs ++ lo.pieces, count := n + lo.count }
            else
              .ok ⟨kids', i, filt', false, text ++ whole, outs, n⟩
    else .ok ⟨kids, i, filt, true, text, [], 0⟩

def renderImpl : Nat → Tree → Budget → Bool → Option (List (Option String)) →
    Except RErr (Tree × RResult × Nat)
  | 0, _, _, _, _ => .error .fuel
  | fuel + 1, tree, length, makeStaticMarkup, selectValues =>
    match getNativeComponent (fuel + 1) tree.element tree.context with
    | .error e => .error e
    | .ok (r, context, cnt) =>
      let tree := tree.withResolved r.toElement context
      match r with
      | .rfalse => .ok (tree, ⟨true, "", [""]⟩, cnt)
      | .rnull =>
        let t := if makeStaticMarkup then "" else "<!-- react-empty -->"
        .ok (tree, ⟨true, t, [t]⟩, cnt)
      | .rundef => .error .undefinedElement
      | .rhost rawTag props =>
        let tag := jsToLower rawTag
        let attributes := rootAttrs tree.root
          ++ propsToAttributes props tag selectValues
        if voidTags.contains tag ∧ isEmptyish props.children then
          let t := "<" ++ tag ++ attributes ++ "/>"
          .ok (tree, ⟨true, t, [t]⟩, cnt)
        else
          let pre := "<" ++ tag ++ attributes ++ ">"
          let suf := "</" ++ tag ++ ">"
          -- the line-138 `if (!props)` guard cannot fire: props is always
          -- an object in this embedding, as element creation guarantees.
          let tree := tree.withFilter (initFilter tree.filter tag)
          if tag == "textarea" ∧ ((props.attrs.lookup "value").isSome
              ∨ (props.attrs.lookup "defaultValue").isSome) then
            let v := match props.attrs.lookup "value" with
              | some v => v
              | none => (props.attrs.lookup "defaultValue").getD ""
            let fo := applyFilter tree.filter v
            let t := pre ++ escapeTextContentForBrowser fo.2 ++ suf
            .ok (tree.withFilter fo.1, ⟨true, t, [t]⟩, cnt)
          else if (props.dangerouslySetInnerHTML.getD "") ≠ "" then
            let fo := applyFilter tree.filter (props.dangerouslySetInnerHTML.getD "")
            let t := pre ++ fo.2 ++ suf
            .ok (tree.withFilter fo.1, ⟨true, t, [t]⟩, cnt)
          else if childFalsy props.children then
            .ok (tree, ⟨true, pre ++ suf, [pre ++ suf]⟩, cnt)
          else
            match props.children with
            | .str s =>
              let fo := applyFilter tree.filter s
              let t := pre ++ escapeTextContentForBrowser fo.2 ++ suf
              .ok (tree.withFilter fo.1, ⟨true, t, [t]⟩, cnt)
            | .num n =>
              -- `tree.filter(number)`: the newline-eating closure calls
              -- `.charAt` on the number and throws; the other filters
              -- return it unchanged and escaping coerces it.
              if tree.filter = .nlFresh then .error .filterOnNumber
              else
                let t := pre ++ escapeTextContentForBrowser (toString n) ++ suf
                .ok (tree, ⟨true, t, [t]⟩, cnt)
            | _ =>
              match tree.childIndex with
              | none =>
                -- first visit: materialize the children list and emit the
                -- opening tag as the first chunk of text
                let tree := tree.withKids
                  (addChildrenToArray (toChildList props.children) tree.context)
                match tree.children with
                | none => .error .nullChildren
                | some kids =>
                  match renderChildren (fun t l s v => renderImpl fuel t l s v) fuel
                      kids 0 pre tree.filter length makeStaticMarkup selectValues
                      tag props with
                  | .error e => .error e
                  | .ok lo =>
                    if lo.done then
                      .ok (tree.afterLoop lo.childIndex lo.filter none,
                           ⟨true, lo.text ++ suf, [pre] ++ lo.pieces ++ [suf]⟩,
                           cnt + lo.count)
                    else
                      .ok (tree.afterLoop lo.childIndex lo.filter (some lo.children),
                           ⟨false, lo.text, [pre] ++ lo.pieces⟩,
                           cnt + lo.count)
              | some i0 =>
                -- resumption: reuse the stored children list and child index
                match tree.children with
                | none => .error .nullChildren
                | some kids =>
                  match renderChildren (fun t l s v => renderImpl fuel t l s v) fuel
                      kids i0 "" tree.filter length makeStaticMarkup selectValues
                      tag props with
                  | .error e => .error e
                  | .ok lo =>
                    if lo.done then
                      .ok (tree.afterLoop lo.childIndex lo.filter none,
                           ⟨true, lo.text ++ suf, lo.pieces ++ [suf]⟩,
                           cnt + lo.count)
                    else
                      .ok (tree.afterLoop lo.childIndex lo.filter (some lo.children),
                           ⟨false, lo.text, lo.pieces⟩,
                           cnt + lo.count)


/-! ## Entry points (`render` and the generator, lines 79-98) -/

/-- The tree created by `render` (lines 92-97): the root flag is set
exactly when not rendering static markup. -/
def initialTree (element : Element) (makeStaticMarkup : Bool) : Tree :=
  Tree.mk element (!makeStaticMarkup) [] none none .unset

/-- The state captured by the generator returned from
`renderResultToGenerator` (lines 80-90): the tree closed over by the
`next` closure and the `done` flag of the wrapped result. -/
structure GenState where
  tree : Tree
  done : Bool

/-- A generator value: the `text` of the wrapped result and the state
its `next` closure captures. -/
structure Gen where
  text : String
  state : GenState

/-- `renderResultToGenerator` (lines 80-90). -/
def renderResultToGenerator (tree : Tree) (res : RResult) : Gen :=
  ⟨res.text, ⟨tree, res.done⟩⟩

/-- `render` (lines 92-98). -/
def render (fuel : Nat) (element : Element) (length : Budget)
    (makeStaticMarkup : Bool) : Except RErr Gen :=
  (renderImpl fuel (initialTree element makeStaticMarkup) length makeStaticMarkup none).map
    fun x => renderResultToGenerator x.1 x.2.1

/-- The generator's `next(length)` (lines 83-88): `null` (`none`) when
the wrapped result is done, otherwise a fresh `renderImpl` call on the
captured tree wrapped as a new generator. -/
def genNext (fuel : Nat) (g : GenState) (length : Budget) (makeStaticMarkup : Bool) :
    Option (Except RErr Gen) :=
  if g.done then none
  else some ((renderImpl fuel g.tree length makeStaticMarkup none).map
    fun x => renderResultToGenerator x.1 x.2.1)

/-- Drive a render to completion with one budget per generator step:
`renderSchedule (k :: ks) …` performs one `renderImpl` call with budget
`k` (exactly what `render`/`next(k)` do) and, unless done, continues
with the remaining budgets on the updated tree, concatenating the texts
and summing the resolver-invocation counts.  An exhausted schedule on an
unfinished tree is reported as fuel exhaustion. -/
def renderSchedule : List Nat → Nat → Tree → Bool → Except RErr (String × Nat)
  | [], _, _, _ => .error .fuel
  | k :: ks, fuel, tree, makeStaticMarkup =>
    match renderImpl fuel tree (some k) makeStaticMarkup none with
    | .error e => .error e
    | .ok (tree', res, c) =>
      if res.done then .ok (res.text, c)
      else
        match renderSchedule ks fuel tree' makeStaticMarkup with
        | .error e => .error e
        | .ok (s, c') => .ok (res.text ++ s, c + c')

/-- The markup text of a completed `render` call, when it succeeds. -/
def renderedText (fuel : Nat) (element : Element) (length : Budget)
    (makeStaticMarkup : Bool) : Option String :=
  ((render fuel element length makeStaticMarkup).map Gen.text).toOption

/-- Concatenation of emitted pieces. -/
def joinPieces (ps : List String) : String :=
  ps.foldr (fun a b => a ++ b) ""

/-- The two `throw` sites of lines 278-291 — the spec's
`ContextDeclarationError` taxonomy entry. -/
def isContextDeclarationError : RErr → Prop
  | .noChildContextTypes => True
  | .undeclaredKey _ => True
  | _ => False

/-! ## Example trees used by concrete theorems and witnesses -/

/-- Props carrying only a `children` value. -/
def childProps (c : Child) : Props := .mk c none []

/-- A host element with only children. -/
def hostEl (tag : String) (c : Child) : Element := .host tag (childProps c)

/-- A stateless component with no context declarations rendering a fixed
element. -/
def constComp (e : Element) : Element :=
  .comp (.mk none none false id (fun _ => e))

/-- A component declaring `contextTypes: {text}` (spec section 8's
context-scoping example). -/
def exDeclComp : Component := .mk (some ["text"]) none false id (fun _ => .enull)

/-- An ancestor-provided context `{text: 'purple', other: 'x'}`. -/
def exCtx : Ctx := [("text", some "purple"), ("other", some "x")]

/-- A component with `childContextTypes: {text}` and a matching
`getChildContext`. -/
def exChildCtxComp : Component :=
  .mk none (some ["text"]) true (fun _ => [("text", some "purple")]) (fun _ => .enull)

/-- A component defining `getChildContext` without declaring
`childContextTypes`. -/
def exNoDeclComp : Component :=
  .mk none none true (fun _ => [("text", some "purple")]) (fun _ => .enull)

/-- The non-static markup of `<div>{"&"}{"x"}</div>` as the code
produces it: the `&` passes through unescaped inside the
`react-text` comment pair. -/
def exUnescaped : String :=
  "<div data-reactroot=\"\"><!-- react-text -->&<!-- /react-text -->"
    ++ "<!-- react-text -->x<!-- /react-text --></div>"

/-- `<div>{["ab", "cd"]}</div>`: a host element with two string children
in an array, exercising the child loop and suspension. -/
def exTwoKids : Element := hostEl "div" (.arr [.str "ab", .str "cd"])

/-- Two nested stateless components around a host element: a tree with
exactly two component nodes, for counting resolver invocations. -/
def exNested : Element := constComp (constComp (hostEl "span" (.str "hi")))

end ReactSSR

namespace ReactSSR

/-! # Theorems -/

@[simp] theorem rootAttrs_true : rootAttrs true = " data-reactroot=\"\"" := rfl

@[simp] theorem rootAttrs_false : rootAttrs false = "" := rfl


/-! ## C3 — null vs false children -/

/-- C3 (counterexample): the claim is false on this code.  In non-static
mode `<div>{null}</div>` renders as `<div data-reactroot=""></div>`, not
as `<div><!-- react-empty --></div>`: a literal `null` child is dropped
by `addChildrenToArray`/the `!props.children` check (the source comments
"null children do NOT result in an empty node"), and the non-static root
carries the `data-reactroot` marker.  `<div>{false}</div>` renders
identically, so the two outputs do not differ. -/
theorem null_vs_false_counterexample :
    renderedText 5 (hostEl "div" .null) none false
      = renderedText 5 (hostEl "div" (.bool false)) none false
    ∧ renderedText 5 (hostEl "div" .null) none false
      = some "<div data-reactroot=\"\"></div>"
    ∧ renderedText 5 (hostEl "div" .null) none false
      ≠ some "<div><!-- react-empty --></div>" := by
  refine ⟨rfl, rfl, ?_⟩
  decide

/-- C3 (amended): in non-static mode both `<div>{null}</div>` and
`<div>{false}</div>` render as `<div data-reactroot=""></div>` — literal
`null` and `false` children are dropped without a placeholder.  The
`<!-- react-empty -->` comment marks an element position that *resolves*
to `null` (e.g. a component returning `null`), while an element position
resolving to `false` renders as the empty string; those two outputs
differ. -/
theorem null_vs_false_amended :
    renderedText 5 (hostEl "div" .null) none false
      = some "<div data-reactroot=\"\"></div>"
    ∧ renderedText 5 (hostEl "div" (.bool false)) none false
      = some "<div data-reactroot=\"\"></div>"
    ∧ renderedText 5 (hostEl "div" (.elem (constComp .enull))) none false
      = some "<div data-reactroot=\"\"><!-- react-empty --></div>"
    ∧ renderedText 5 (hostEl "div" (.elem (constComp .efalse))) none false
      = some "<div data-reactroot=\"\"></div>"
    ∧ renderedText 5 (hostEl "div" (.elem (constComp .enull))) none false
      ≠ renderedText 5 (hostEl "div" (.elem (constComp .efalse))) none false := by
  refine ⟨rfl, rfl, rfl, rfl, ?_⟩
  decide

/-! ## C4 — text escaping -/

set_option maxRecDepth 4000 in
/-- C4 (counterexample): the claim is false on this code.  In non-static
mode the primitive children of `<div>{"&"}{"x"}</div>` are emitted
wrapped in `react-text` comment pairs but *unescaped* (line 196-198
applies `escapeTextContentForBrowser` only in static mode): the output
contains a raw `&` and no `&amp;` anywhere. -/
theorem text_escaping_counterexample :
    renderedText 5 (hostEl "div" (.arr [.str "&", .str "x"])) none false
      = some exUnescaped
    ∧ escapeTextContentForBrowser "&" = "&amp;"
    ∧ ¬ ("&amp;".data <:+: exUnescaped.data) := by
  refine ⟨rfl, rfl, ?_⟩
  decide

/-- C4 (amended): in static mode primitive children emitted as text
content are HTML-escaped (`&`, `<`, `>`, `"`, `'`) and carry no comment
markers.  In non-static mode a primitive child inside a children array
is wrapped in the `<!-- react-text -->`/`<!-- /react-text -->` comment
pair with its raw, unescaped text, while a sole primitive child (the
entire `children` prop) is HTML-escaped and not wrapped. -/
theorem text_escaping_amended :
    (∀ s₁ s₂ : String,
      renderedText 5 (hostEl "div" (.arr [.str s₁, .str s₂])) none true
        = some ("<div>" ++ escapeTextContentForBrowser s₁
            ++ escapeTextContentForBrowser s₂ ++ "</div>"))
    ∧ (∀ s₁ s₂ : String,
      renderedText 5 (hostEl "div" (.arr [.str s₁, .str s₂])) none false
        = some ("<div data-reactroot=\"\">" ++ ("<!-- react-text -->"
            ++ (s₁ ++ ("<!-- /react-text -->" ++ ("<!-- react-text -->"
            ++ (s₂ ++ "<!-- /react-text --></div>")))))))
    ∧ (∀ s : String, s ≠ "" →
      renderedText 5 (hostEl "div" (.str s)) none true
        = some ("<div>" ++ escapeTextContentForBrowser s ++ "</div>")
      ∧ renderedText 5 (hostEl "div" (.str s)) none false
        = some ("<div data-reactroot=\"\">" ++ escapeTextContentForBrowser s ++ "</div>")) := by
  refine ⟨?_, ?_, ?_⟩
  · intro s₁ s₂
    simp [renderedText, render, initialTree, renderImpl, renderChildren,
      getNativeComponent, Tree.element, Tree.context, Tree.root, Tree.childIndex,
      Tree.children, Tree.filter, Tree.withResolved, Tree.withFilter, Tree.withKids,
      Tree.afterLoop, Resolved.toElement, hostEl, childProps, propsToAttributes,
      Props.children, Props.dangerouslySetInnerHTML, Props.attrs, jsToLower,
      voidTags, newlineEatingTags, isEmptyish, childFalsy, toChildList,
      addChildrenToArray, addOneChild, initFilter, applyFilter, applyFilterList,
      primPiece, primText, budgetReached, budgetSub, getSelectValues,
      renderResultToGenerator, Except.map, Except.toOption, String.append_assoc]
  · intro s₁ s₂
    simp [renderedText, render, initialTree, renderImpl, renderChildren,
      getNativeComponent, Tree.element, Tree.context, Tree.root, Tree.childIndex,
      Tree.children, Tree.filter, Tree.withResolved, Tree.withFilter, Tree.withKids,
      Tree.afterLoop, Resolved.toElement, hostEl, childProps, propsToAttributes,
      Props.children, Props.dangerouslySetInnerHTML, Props.attrs, jsToLower,
      voidTags, newlineEatingTags, isEmptyish, childFalsy, toChildList,
      addChildrenToArray, addOneChild, initFilter, applyFilter, applyFilterList,
      primPiece, primText, budgetReached, budgetSub, getSelectValues,
      renderResultToGenerator, Except.map, Except.toOption, String.append_assoc]
  · intro s hs
    constructor <;>
    simp [renderedText, render, initialTree, renderImpl, renderChildren,
      getNativeComponent, Tree.element, Tree.context, Tree.root, Tree.childIndex,
      Tree.children, Tree.filter, Tree.withResolved, Tree.withFilter, Tree.withKids,
      Tree.afterLoop, Resolved.toElement, hostEl, childProps, propsToAttributes,
      Props.children, Props.dangerouslySetInnerHTML, Props.attrs, jsToLower,
      voidTags, newlineEatingTags, isEmptyish, childFalsy, initFilter, applyFilter,
      renderResultToGenerator, Except.map, Except.toOption, hs, String.append_assoc]

/-! ## C10 — the generator is absorbing once done -/

/-- C10: once a generator step carries `done = true`, `next(length)`
returns `null` for every budget: the `next` closure checks the captured
result's `done` flag before doing anything else, so no further
`renderImpl` call happens and the captured tree is not touched. -/
theorem generator_done_absorbing (fuel : Nat) (t : Tree) (len : Budget) (static : Bool) :
    genNext fuel ⟨t, true⟩ len static = none := rfl

/-! ## C8 — newline-eating tags -/

/-- C8: for the newline-eating tags, a rendered text content starting
with a newline receives exactly one extra leading newline, applied only
to the node's first non-empty emission.  `<pre>{"\nHello"}</pre>` yields
content `"\n\nHello"` in both modes; `<pre>Hello</pre>` yields `"Hello"`
unmodified; the multi-child static render shows the transform firing
once, on the first non-empty emission (an empty first emission does not
consume it, a later `"\nB"` is left alone); after the first non-empty
emission the filter is the identity; a non-newline-eating tag is never
transformed. -/
theorem newline_eating_quirk :
    renderedText 5 (hostEl "pre" (.str "\nHello")) none true = some "<pre>\n\nHello</pre>"
    ∧ renderedText 5 (hostEl "pre" (.str "\nHello")) none false
        = some "<pre data-reactroot=\"\">\n\nHello</pre>"
    ∧ renderedText 5 (hostEl "pre" (.str "Hello")) none true = some "<pre>Hello</pre>"
    ∧ renderedText 5 (hostEl "pre" (.str "Hello")) none false
        = some "<pre data-reactroot=\"\">Hello</pre>"
    ∧ renderedText 5 (hostEl "listing" (.str "\nX")) none true
        = some "<listing>\n\nX</listing>"
    ∧ renderedText 5 (hostEl "textarea" (.str "\nX")) none true
        = some "<textarea>\n\nX</textarea>"
    ∧ renderedText 5 (hostEl "pre" (.arr [.str "", .str "\nA", .str "\nB"])) none true
        = some "<pre>\n\nA\nB</pre>"
    ∧ (∀ t : String, (applyFilter .nlDone t).2 = t)
    ∧ renderedText 5 (hostEl "div" (.str "\nHello")) none true
        = some "<div>\nHello</div>" :=
  ⟨rfl, rfl, rfl, rfl, rfl, rfl, rfl, fun _ => rfl, rfl⟩

/-! ## C5 — context scoping -/

/-- Reading a key of a filtered context: declared keys read the
ancestor-provided value (or `undefined`), undeclared keys read as
`undefined`. -/
theorem jsGet_filterContext (ctx : Ctx) (types : List String) (k : String) :
    jsGet (filterContext ctx types) k
      = if types.contains k then jsGet ctx k else none := by
  induction types with
  | nil => rfl
  | cons t ts ih =>
    by_cases hk : t = k
    · subst hk
      simp [filterContext, jsGet, List.lookup]
    · have h1 : (k == t) = false := beq_eq_false_iff_ne.mpr (fun h => hk h.symm)
      have h2 : (t == k) = false := beq_eq_false_iff_ne.mpr hk
      simp only [filterContext, List.map_cons, jsGet, List.lookup, h1,
        List.contains_cons, h2, Bool.false_or] at *
      exact ih

/-- C5: a component declaring `contextTypes` receives a context with
exactly the declared keys, each bound to the ancestor-provided value
(`undefined` when the ancestor provided none); reading an undeclared
key yields `undefined`, never an error, and never exposes an undeclared
ancestor key; a component without `contextTypes` receives the empty
context regardless of what ancestors provided; the resolver hands
exactly this filtered context to the component. -/
theorem context_scoping :
    (∀ (c : Component) (ctx : Ctx) (decl : List String) (k : String),
      c.contextTypes = some decl →
        ((exposedContext c ctx).map Prod.fst = decl
         ∧ jsGet (exposedContext c ctx) k
             = (if decl.contains k then jsGet ctx k else none)))
    ∧ (∀ (c : Component) (ctx : Ctx), c.contextTypes = none → exposedContext c ctx = [])
    ∧ (∀ (c : Component) (ctx : Ctx), c.hasGetChildContext = false →
        resolveStep c ctx = .ok (c.run (exposedContext c ctx), ctx)) := by
  refine ⟨fun c ctx decl k h => ⟨?_, ?_⟩, fun c ctx h => ?_, fun c ctx h => ?_⟩
  · simp only [exposedContext, h, filterContext, List.map_map]
    rw [show (Prod.fst ∘ fun n => ((n : String), jsGet ctx n)) = id from rfl, List.map_id]
  · simp [exposedContext, h, jsGet_filterContext]
  · simp [exposedContext, h]
  · simp [resolveStep, h]

/-- C5 (witness): the spec's own example, evaluated: a descendant
declaring `contextTypes: {text}` under an ancestor providing
`{text: 'purple', other: 'x'}` sees `text` bound to `'purple'`, has
exactly the declared key, and reads `other` as `undefined`. -/
theorem context_scoping_witness :
    (exposedContext exDeclComp exCtx).map Prod.fst = ["text"]
    ∧ jsGet (exposedContext exDeclComp exCtx) "text" = some "purple"
    ∧ jsGet (exposedContext exDeclComp exCtx) "other" = none :=
  ⟨(context_scoping.1 exDeclComp exCtx ["text"] "text" rfl).1,
   (context_scoping.1 exDeclComp exCtx ["text"] "text" rfl).2,
   (context_scoping.1 exDeclComp exCtx ["text"] "other" rfl).2⟩

/-! ## C9 — child-context declaration errors -/

/-- C9: a component-resolution step throws — with one of the two
`ContextDeclarationError` messages — exactly when the instance defines
`getChildContext` while its type declares no `childContextTypes`, or
`getChildContext()` produces a key missing from `childContextTypes`.
When neither condition holds the step succeeds and the produced child
context is merged (`Object.assign`) into the context passed down; a
component without `getChildContext` passes the context through
unchanged. -/
theorem context_declaration_error (c : Component) (ctx : Ctx) :
    ((∃ e, resolveStep c ctx = .error e ∧ isContextDeclarationError e)
      ↔ (c.hasGetChildContext = true
          ∧ (c.childContextTypes = none
             ∨ ∃ decl kv, c.childContextTypes = some decl
                 ∧ kv ∈ c.getChildContext (exposedContext c ctx)
                 ∧ kv.1 ∉ decl)))
    ∧ (∀ decl, c.hasGetChildContext = true → c.childContextTypes = some decl →
        (∀ kv ∈ c.getChildContext (exposedContext c ctx), kv.1 ∈ decl) →
        resolveStep c ctx
          = .ok (c.run (exposedContext c ctx),
                 jsAssign ctx (c.getChildContext (exposedContext c ctx))))
    ∧ (c.hasGetChildContext = false →
        resolveStep c ctx = .ok (c.run (exposedContext c ctx), ctx)) := by
  obtain ⟨ct, cct, hgc, gcc, rn⟩ := c
  simp only [resolveStep, Component.hasGetChildContext, Component.childContextTypes,
    Component.getChildContext, Component.run]
  cases hgc with
  | false =>
    refine ⟨?_, ?_, ?_⟩
    · constructor
      · rintro ⟨e, he, _⟩
        simp at he
      · rintro ⟨h, _⟩
        simp at h
    · intro decl h
      simp at h
    · intro _
      simp
  | true =>
    cases cct with
    | none =>
      refine ⟨?_, ?_, ?_⟩
      · constructor
        · intro _
          exact ⟨by trivial, Or.inl (by trivial)⟩
        · intro _
          refine ⟨.noChildContextTypes, by simp, by trivial⟩
      · intro decl _ h
        simp at h
      · intro h
        simp at h
    | some decl =>
      refine ⟨?_, ?_, ?_⟩
      · cases hf : (gcc (exposedContext (.mk ct (some decl) true gcc rn) ctx)).find?
            (fun kv => !decl.contains kv.1) with
        | none =>
          simp only [hf]
          constructor
          · rintro ⟨e, he, _⟩
            simp at he
          · rintro ⟨-, h | ⟨decl', kv, hd, hmem, hcon⟩⟩
            · simp at h
            · cases hd
              have hne := List.find?_eq_none.mp hf kv hmem
              simp at hne
              exact absurd hne hcon
        | some kv =>
          simp only [hf]
          constructor
          · intro _
            have hp := List.find?_some hf
            simp at hp
            exact ⟨by trivial,
              Or.inr ⟨decl, kv, by trivial, List.mem_of_find?_eq_some hf, hp⟩⟩
          · intro _
            refine ⟨.undeclaredKey kv.1, by simp, by trivial⟩
      · intro decl' _ hd hall
        have hdd : decl = decl' := by
          simpa using hd
        subst hdd
        have hf : (gcc (exposedContext (.mk ct (some decl) true gcc rn) ctx)).find?
            (fun kv => !decl.contains kv.1) = none := by
          rw [List.find?_eq_none]
          intro kv hmem
          simp [hall kv hmem]
        simp only [reduceIte]
        rw [hf]
      · intro h
        simp at h

/-- C9 (witness): a concrete component with `childContextTypes: {text}`
producing `{text: 'purple'}` resolves without error and merges the
produced key into the empty parent context; one with `getChildContext`
but no declaration errors. -/
theorem context_declaration_error_witness :
    resolveStep exChildCtxComp [] = .ok (.enull, [("text", some "purple")])
    ∧ (∃ e, resolveStep exNoDeclComp [] = .error e ∧ isContextDeclarationError e) :=
  ⟨(context_declaration_error exChildCtxComp []).2.1 ["text"] rfl rfl (by decide),
   ((context_declaration_error exNoDeclComp []).1).mpr ⟨rfl, Or.inl rfl⟩⟩

/-! ## C7 — void-tag self-closing -/

/-- C7: a childless tag in the void set self-closes (`.../>`), never
receiving a closing tag, in every mode and at every budget; a childless
tag outside the void set renders with an explicit closing tag.
Concretely, `<img/>` renders as `<img/>` and `<div/>` as `<div></div>`
(static mode renders exactly those strings; non-static mode adds only
the root marker attribute). -/
theorem void_tag_selfclosing :
    (∀ (f : Nat) (rawTag : String) (p : Props) (static : Bool) (len : Budget)
        (sv : Option (List (Option String))),
      voidTags.contains (jsToLower rawTag) = true →
      isEmptyish p.children = true →
      (renderImpl (f + 1) (initialTree (.host rawTag p) static) len static sv).map
          (fun x => x.2)
        = .ok
            (⟨true, "<" ++ jsToLower rawTag
              ++ ((if !static then " data-reactroot=\"\"" else "")
                  ++ propsToAttributes p (jsToLower rawTag) sv) ++ "/>",
             ["<" ++ jsToLower rawTag
              ++ ((if !static then " data-reactroot=\"\"" else "")
                  ++ propsToAttributes p (jsToLower rawTag) sv) ++ "/>"]⟩, 0))
    ∧ (∀ (f : Nat) (rawTag : String) (p : Props) (static : Bool) (len : Budget)
        (sv : Option (List (Option String))),
      voidTags.contains (jsToLower rawTag) = false →
      childFalsy p.children = true →
      jsToLower rawTag ≠ "textarea" →
      p.dangerouslySetInnerHTML = none →
      (renderImpl (f + 1) (initialTree (.host rawTag p) static) len static sv).map
          (fun x => x.2)
        = .ok
            (⟨true, ("<" ++ jsToLower rawTag
              ++ ((if !static then " data-reactroot=\"\"" else "")
                  ++ propsToAttributes p (jsToLower rawTag) sv) ++ ">")
              ++ ("</" ++ jsToLower rawTag ++ ">"),
             [("<" ++ jsToLower rawTag
              ++ ((if !static then " data-reactroot=\"\"" else "")
                  ++ propsToAttributes p (jsToLower rawTag) sv) ++ ">")
              ++ ("</" ++ jsToLower rawTag ++ ">")]⟩, 0))
    ∧ renderedText 5 (hostEl "img" .undef) none true = some "<img/>"
    ∧ renderedText 5 (hostEl "div" .undef) none true = some "<div></div>"
    ∧ renderedText 5 (hostEl "img" .undef) none false = some "<img data-reactroot=\"\"/>"
    ∧ renderedText 5 (hostEl "div" .undef) none false
        = some "<div data-reactroot=\"\"></div>" := by
  refine ⟨?_, ?_, rfl, rfl, rfl, rfl⟩
  · intro f rawTag p static len sv hv he
    simp only [renderImpl, initialTree, Tree.element, Tree.context, Tree.root,
      getNativeComponent, Resolved.toElement, Tree.withResolved]
    rw [if_pos ⟨hv, he⟩]
    rfl
  · intro f rawTag p static len sv hv hc hta hd
    simp only [renderImpl, initialTree, Tree.element, Tree.context, Tree.root,
      getNativeComponent, Resolved.toElement, Tree.withResolved, Tree.withFilter]
    rw [if_neg (by rintro ⟨h1, -⟩; rw [hv] at h1; exact Bool.false_ne_true h1),
      if_neg (by rintro ⟨h1, -⟩; exact hta (by simpa using h1)),
      if_neg (by simp [hd]), if_pos hc]
    rfl

/-- C4 (witness): the amended escaping statement applied at concrete
strings, with the non-emptiness hypothesis discharged at `"a<b"`. -/
theorem text_escaping_amended_witness :
    ("a<b" ≠ ""
     ∧ renderedText 5 (hostEl "div" (.str "a<b")) none true
         = some ("<div>" ++ escapeTextContentForBrowser "a<b" ++ "</div>")) :=
  ⟨by decide, (text_escaping_amended.2.2 "a<b" (by decide)).1⟩

/-- C7 (witness): the general void/non-void statements applied to
`<img/>` and `<div/>` in static mode at budget `Infinity`. -/
theorem void_tag_selfclosing_witness :
    (renderImpl 5 (initialTree (.host "img" (childProps .undef)) true) none true none).map
        (fun x => x.2)
      = .ok (⟨true, "<img/>", ["<img/>"]⟩, 0)
    ∧ (renderImpl 5 (initialTree (.host "div" (childProps .undef)) true) none true none).map
        (fun x => x.2)
      = .ok (⟨true, "<div></div>", ["<div></div>"]⟩, 0) :=
  ⟨void_tag_selfclosing.1 4 "img" (childProps .undef) true none none rfl rfl,
   void_tag_selfclosing.2.1 4 "div" (childProps .undef) true none none rfl rfl
     (by decide) rfl⟩

/-! ## Infrastructure: strings, pieces and the filter state machine -/

theorem strApp_assoc (a b c : String) : (a ++ b) ++ c = a ++ (b ++ c) :=
  String.append_assoc a b c

theorem str_ne_empty_of_len (a : String) (h : 1 ≤ a.length) : a ≠ "" := by
  intro he
  subst he
  simp at h

theorem strApp_ne_empty_right (a b : String) (h : b ≠ "") : a ++ b ≠ "" := by
  intro he
  have := congrArg String.length he
  simp [String.length_append] at this
  exact h (by cases b with | mk l => cases l with
    | nil => rfl
    | cons c cs => simp at this)

theorem strApp_ne_empty_left (a b : String) (h : a ≠ "") : a ++ b ≠ "" := by
  intro he
  have := congrArg String.length he
  simp [String.length_append] at this
  exact h (by cases a with | mk l => cases l with
    | nil => rfl
    | cons c cs => simp at this)

theorem joinPieces_nil : joinPieces [] = "" := rfl

theorem joinPieces_cons (p : String) (ps : List String) :
    joinPieces (p :: ps) = p ++ joinPieces ps := rfl

theorem joinPieces_append (ps qs : List String) :
    joinPieces (ps ++ qs) = joinPieces ps ++ joinPieces qs := by
  induction ps with
  | nil => simp [joinPieces_nil, joinPieces]
  | cons p ps ih =>
    simp only [List.cons_append, joinPieces_cons, ih, strApp_assoc]

theorem joinPieces_single (p : String) : joinPieces [p] = p := by
  simp [joinPieces_cons, joinPieces_nil]

/-- `applyFilter` never reverts an initialized filter to `unset`. -/
theorem applyFilter_ne_unset (f : Filter) (s : String) (h : f ≠ .unset) :
    (applyFilter f s).1 ≠ .unset := by
  cases f with
  | unset => exact absurd rfl h
  | identity => simp [applyFilter]
  | nlDone => simp [applyFilter]
  | nlFresh =>
    simp only [applyFilter]
    split <;> simp

/-- The filter preserves non-emptiness. -/
theorem applyFilter_ne_empty (f : Filter) (s : String) (h : s ≠ "") :
    (applyFilter f s).2 ≠ "" := by
  cases f with
  | unset => exact h
  | identity => exact h
  | nlDone => exact h
  | nlFresh =>
    simp only [applyFilter]
    split
    · exact h
    · split
      · exact strApp_ne_empty_right _ _ h
      · exact h

/-- The filter preserves emptiness. -/
theorem applyFilter_empty (f : Filter) : applyFilter f "" = (f, "") := by
  cases f <;> simp [applyFilter]

/-- Chunkwise filtering composes: filtering `a ++ b` equals filtering
`a`, then `b` with the updated state, concatenating the outputs. -/
theorem applyFilter_append (f : Filter) (a b : String) :
    applyFilter f (a ++ b)
      = ((applyFilter (applyFilter f a).1 b).1,
         (applyFilter f a).2 ++ (applyFilter (applyFilter f a).1 b).2) := by
  cases f with
  | unset => simp [applyFilter]
  | identity => simp [applyFilter]
  | nlDone => simp [applyFilter]
  | nlFresh =>
    by_cases ha : a = ""
    · subst ha
      simp [applyFilter]
    · have hd : a.data ≠ [] := by
        intro hh
        exact ha (by cases a with | mk l => cases hh; rfl)
      have hlen : a.length ≠ 0 := by
        cases a with | mk l =>
        cases l with
        | nil => exact absurd rfl hd
        | cons c cs => simp [String.length]
      have hablen : (a ++ b).length ≠ 0 := by
        rw [String.length_append]
        omega
      have hhead : (a ++ b).data.head? = a.data.head? := by
        rw [String.data_append, List.head?_append_of_ne_nil _ hd]
      simp only [applyFilter, if_neg hablen, if_neg hlen, hhead]
      split
      · simp [applyFilter, strApp_assoc]
      · simp [applyFilter]

/-- List version of `applyFilter_append`. -/
theorem applyFilterList_append (f : Filter) (ps qs : List String) :
    applyFilterList f (ps ++ qs)
      = ((applyFilterList (applyFilterList f ps).1 qs).1,
         (applyFilterList f ps).2 ++ (applyFilterList (applyFilterList f ps).1 qs).2) := by
  induction ps generalizing f with
  | nil => simp [applyFilterList]
  | cons p ps ih =>
    simp only [List.cons_append, applyFilterList]
    rw [show ps.append qs = ps ++ qs from rfl, ih]

/-- Filtering pieces one by one agrees with filtering their
concatenation: same final state, and the outputs concatenate to the
filtered concatenation. -/
theorem applyFilterList_join (f : Filter) (ps : List String) :
    (applyFilterList f ps).1 = (applyFilter f (joinPieces ps)).1
    ∧ joinPieces (applyFilterList f ps).2 = (applyFilter f (joinPieces ps)).2 := by
  induction ps generalizing f with
  | nil =>
    simp [applyFilterList, joinPieces_nil, applyFilter_empty]
  | cons p ps ih =>
    have h := applyFilter_append f p (joinPieces ps)
    refine ⟨?_, ?_⟩
    · simp only [applyFilterList, joinPieces_cons, h, (ih (applyFilter f p).1).1]
    · simp only [applyFilterList, joinPieces_cons, h, joinPieces_cons,
        (ih (applyFilter f p).1).2]

/-! ## Infrastructure: generic facts about the child loop

The lemmas in this section are generic in the child renderer `R` (which
`renderImpl` instantiates with itself at the remaining fuel), so the
mutual induction between the renderer and its loop can be organized as
one induction on fuel. -/

@[simp] theorem budgetReached_none (n : Nat) : budgetReached n none = false := rfl

@[simp] theorem budgetSub_none (n : Nat) : budgetSub none n = none := rfl

/-- Under an unlimited budget the accumulated text is a pure
accumulator: running the loop with accumulator `a` equals running it
with an empty accumulator and prepending `a`.  Everything else in the
outcome is unchanged. -/
theorem loop_shift (R : Tree → Budget → Bool → Option (List (Option String)) →
    Except RErr (Tree × RResult × Nat)) (g : Nat) :
    ∀ (kids : List TChild) (i : Nat) (a : String) (filt : Filter) (st : Bool)
      (sv : Option (List (Option String))) (tag : String) (props : Props),
    renderChildren R g kids i a filt none st sv tag props
      = (renderChildren R g kids i "" filt none st sv tag props).map
          (fun lo => { lo with text := a ++ lo.text }) := by
  induction g with
  | zero => intro kids i a filt st sv tag props; rfl
  | succ g ih =>
    intro kids i a filt st sv tag props
    by_cases h : i < kids.length
    · simp only [renderChildren, dif_pos h, budgetReached_none, Bool.false_eq_true,
        if_false, reduceIte, budgetSub_none]
      cases hk : kids[i] with
      | prim p =>
        cases p with
        | pother => rfl
        | pstr s =>
          simp only []
          rw [ih kids (i+1) ("" ++ (applyFilter filt (primPiece st (.pstr s))).2),
            ih kids (i+1) (a ++ (applyFilter filt (primPiece st (.pstr s))).2)]
          cases renderChildren R g kids (i + 1) ""
              (applyFilter filt (primPiece st (.pstr s))).1 none st sv tag props with
          | error e => rfl
          | ok lo => simp [Except.map, strApp_assoc]
        | pnum n =>
          simp only []
          rw [ih kids (i+1) ("" ++ (applyFilter filt (primPiece st (.pnum n))).2),
            ih kids (i+1) (a ++ (applyFilter filt (primPiece st (.pnum n))).2)]
          cases renderChildren R g kids (i + 1) ""
              (applyFilter filt (primPiece st (.pnum n))).1 none st sv tag props with
          | error e => rfl
          | ok lo => simp [Except.map, strApp_assoc]
      | node t =>
        simp only []
        cases hres : R t none st (if sv.isSome then sv else getSelectValues tag props) with
        | error e => rfl
        | ok out =>
          obtain ⟨t', res, n⟩ := out
          by_cases hdone : res.done
          · simp only [hdone, if_true, reduceIte]
            rw [ih (kids.set i (.node t')) (i+1) ("" ++ (applyFilter filt res.text).2),
              ih (kids.set i (.node t')) (i+1) (a ++ (applyFilter filt res.text).2)]
            cases renderChildren R g (kids.set i (.node t')) (i + 1) ""
                (applyFilter filt res.text).1 none st
                (if sv.isSome then sv else getSelectValues tag props) tag props with
            | error e => rfl
            | ok lo => simp [Except.map, strApp_assoc]
          · simp only [hdone, Bool.false_eq_true, if_false, reduceIte, Except.map]
            rfl
    · simp only [renderChildren, dif_neg h, Except.map, String.append_empty]

/-- Loop fuel is monotone: a successful run is reproduced by any larger
fuel. -/
theorem loop_mono (R : Tree → Budget → Bool → Option (List (Option String)) →
    Except RErr (Tree × RResult × Nat)) :
    ∀ (g g' : Nat), g ≤ g' →
    ∀ kids i a filt len st sv tag props lo,
    renderChildren R g kids i a filt len st sv tag props = .ok lo →
    renderChildren R g' kids i a filt len st sv tag props = .ok lo := by
  intro g
  induction g with
  | zero =>
    intro g' _ kids i a filt len st sv tag props lo hok
    exact absurd hok (by simp [renderChildren])
  | succ g ih =>
    intro g' hle kids i a filt len st sv tag props lo hok
    obtain ⟨g'', rfl⟩ : ∃ g'', g' = g'' + 1 := by
      cases g' with
      | zero => omega
      | succ n => exact ⟨n, rfl⟩
    have hg : g ≤ g'' := by omega
    by_cases h : i < kids.length
    · simp only [renderChildren, dif_pos h] at hok ⊢
      by_cases hb : budgetReached a.length len
      · simpa [hb] using hok
      · simp only [hb, Bool.false_eq_true, if_false, reduceIte] at hok ⊢
        cases hk : kids[i] with
        | prim p =>
          cases p with
          | pother => simp [hk] at hok
          | pstr s =>
            simp only [hk] at hok ⊢
            cases htail : renderChildren R g kids (i + 1)
                (a ++ (applyFilter filt (primPiece st (.pstr s))).2)
                (applyFilter filt (primPiece st (.pstr s))).1 len st sv tag props with
            | error e => simp [htail] at hok
            | ok lo' =>
              rw [ih g'' hg _ _ _ _ _ _ _ _ _ _ htail]
              simpa [htail] using hok
          | pnum n =>
            simp only [hk] at hok ⊢
            cases htail : renderChildren R g kids (i + 1)
                (a ++ (applyFilter filt (primPiece st (.pnum n))).2)
                (applyFilter filt (primPiece st (.pnum n))).1 len st sv tag props with
            | error e => simp [htail] at hok
            | ok lo' =>
              rw [ih g'' hg _ _ _ _ _ _ _ _ _ _ htail]
              simpa [htail] using hok
        | node t =>
          simp only [hk] at hok ⊢
          cases hres : R t (budgetSub len a.length) st
              (if sv.isSome then sv else getSelectValues tag props) with
          | error e => simp [hres] at hok
          | ok out =>
            obtain ⟨t', res, n⟩ := out
            simp only [hres] at hok ⊢
            by_cases hdone : res.done
            · simp only [hdone, if_true, reduceIte] at hok ⊢
              cases htail : renderChildren R g (kids.set i (.node t')) (i + 1)
                  (a ++ (applyFilter filt res.text).2) (applyFilter filt res.text).1
                  len st (if sv.isSome then sv else getSelectValues tag props)
                  tag props with
              | error e => simp [htail] at hok
              | ok lo' =>
                rw [ih g'' hg _ _ _ _ _ _ _ _ _ _ htail]
                simpa [htail] using hok
            · simpa [hdone] using hok
    · simp only [renderChildren, dif_neg h] at hok ⊢
      exact hok

/-- Entries strictly below the loop's start index are carried along
untouched: running on `kids.set m x` (for `m < i`) is running on `kids`
and re-applying the `set` to the resulting children list. -/
theorem loop_set_below (R : Tree → Budget → Bool → Option (List (Option String)) →
    Except RErr (Tree × RResult × Nat)) (g : Nat) :
    ∀ kids (m i : Nat) (x : TChild) (a : String) filt len st sv tag props, m < i →
    renderChildren R g (kids.set m x) i a filt len st sv tag props
      = (renderChildren R g kids i a filt len st sv tag props).map
          (fun lo => { lo with children := lo.children.set m x }) := by
  induction g with
  | zero => intro kids m i x a filt len st sv tag props _; rfl
  | succ g ih =>
    intro kids m i x a filt len st sv tag props hmi
    have hne : m ≠ i := Nat.ne_of_lt hmi
    by_cases h : i < kids.length
    · have h' : i < (kids.set m x).length := by simpa using h
      have hget : (kids.set m x)[i] = kids[i] := List.getElem_set_ne hne h'
      simp only [renderChildren, dif_pos h, dif_pos h', hget]
      by_cases hb : budgetReached a.length len
      · simp [hb, Except.map]
      · simp only [hb, Bool.false_eq_true, if_false, reduceIte]
        cases hk : kids[i] with
        | prim p =>
          cases p with
          | pother => rfl
          | pstr s =>
            simp only []
            rw [ih kids m (i+1) x _ _ _ _ _ _ _ (by omega)]
            cases renderChildren R g kids (i + 1)
                (a ++ (applyFilter filt (primPiece st (.pstr s))).2)
                (applyFilter filt (primPiece st (.pstr s))).1 len st sv tag props with
            | error e => rfl
            | ok lo => simp [Except.map]
          | pnum n =>
            simp only []
            rw [ih kids m (i+1) x _ _ _ _ _ _ _ (by omega)]
            cases renderChildren R g kids (i + 1)
                (a ++ (applyFilter filt (primPiece st (.pnum n))).2)
                (applyFilter filt (primPiece st (.pnum n))).1 len st sv tag props with
            | error e => rfl
            | ok lo => simp [Except.map]
        | node t =>
          simp only []
          cases hres : R t (budgetSub len a.length) st
              (if sv.isSome then sv else getSelectValues tag props) with
          | error e => rfl
          | ok out =>
            obtain ⟨t', res, n⟩ := out
            by_cases hdone : res.done
            · simp only [hdone, if_true, reduceIte]
              rw [List.set_comm _ _ _ hne,
                ih (kids.set i (.node t')) m (i+1) x _ _ _ _ _ _ _ (by omega)]
              cases renderChildren R g (kids.set i (.node t')) (i + 1)
                  (a ++ (applyFilter filt res.text).2) (applyFilter filt res.text).1
                  len st (if sv.isSome then sv else getSelectValues tag props)
                  tag props with
              | error e => rfl
              | ok lo => simp [Except.map]
            · simp only [hdone, Bool.false_eq_true, if_false, reduceIte, Except.map,
                List.set_comm _ _ _ hne]
    · have h' : ¬ i < (kids.set m x).length := by simpa using h
      simp [renderChildren, dif_neg h, dif_neg h', Except.map]

/-- The loop's text is the accumulator followed by the concatenation of
its emitted pieces (given that child results satisfy the same
invariant). -/
theorem loop_join (R : Tree → Budget → Bool → Option (List (Option String)) →
    Except RErr (Tree × RResult × Nat))
    (hR : ∀ t len st sv t' res n, R t len st sv = .ok (t', res, n) →
      res.text = joinPieces res.pieces) :
    ∀ (g : Nat) kids i (a : String) filt len st sv tag props lo,
    renderChildren R g kids i a filt len st sv tag props = .ok lo →
    lo.text = a ++ joinPieces lo.pieces := by
  intro g
  induction g with
  | zero =>
    intro kids i a filt len st sv tag props lo hok
    exact absurd hok (by simp [renderChildren])
  | succ g ih =>
    intro kids i a filt len st sv tag props lo hok
    by_cases h : i < kids.length
    · simp only [renderChildren, dif_pos h] at hok
      by_cases hb : budgetReached a.length len
      · simp only [hb, if_true, reduceIte] at hok
        cases hok
        simp [joinPieces_nil, String.append_empty]
      · simp only [hb, Bool.false_eq_true, if_false, reduceIte] at hok
        cases hk : kids[i] with
        | prim p =>
          rw [hk] at hok
          cases p with
          | pother => simp at hok
          | pstr s =>
            simp only [] at hok
            cases htail : renderChildren R g kids (i + 1)
                (a ++ (applyFilter filt (primPiece st (.pstr s))).2)
                (applyFilter filt (primPiece st (.pstr s))).1 len st sv tag props with
            | error e => simp [htail] at hok
            | ok lo' =>
              rw [htail] at hok
              simp only [] at hok
              cases hok
              have := ih _ _ _ _ _ _ _ _ _ _ htail
              simp only [this, joinPieces_cons, strApp_assoc]
          | pnum n =>
            simp only [] at hok
            cases htail : renderChildren R g kids (i + 1)
                (a ++ (applyFilter filt (primPiece st (.pnum n))).2)
                (applyFilter filt (primPiece st (.pnum n))).1 len st sv tag props with
            | error e => simp [htail] at hok
            | ok lo' =>
              rw [htail] at hok
              simp only [] at hok
              cases hok
              have := ih _ _ _ _ _ _ _ _ _ _ htail
              simp only [this, joinPieces_cons, strApp_assoc]
        | node t =>
          rw [hk] at hok
          simp only [] at hok
          cases hres : R t (budgetSub len a.length) st
              (if sv.isSome then sv else getSelectValues tag props) with
          | error e => simp [hres] at hok
          | ok out =>
            obtain ⟨t', res, n⟩ := out
            rw [hres] at hok
            simp only [] at hok
            have hjoin : (applyFilter filt res.text).2
                = joinPieces (applyFilterList filt res.pieces).2 := by
              rw [(applyFilterList_join filt res.pieces).2,
                hR _ _ _ _ _ _ _ hres]
            by_cases hdone : res.done
            · simp only [hdone, if_true, reduceIte] at hok
              cases htail : renderChildren R g (kids.set i (.node t')) (i + 1)
                  (a ++ (applyFilter filt res.text).2) (applyFilter filt res.text).1
                  len st (if sv.isSome then sv else getSelectValues tag props)
                  tag props with
              | error e => simp [htail] at hok
              | ok lo' =>
                rw [htail] at hok
                simp only [] at hok
                cases hok
                have := ih _ _ _ _ _ _ _ _ _ _ htail
                simp only [this, joinPieces_append, hjoin, strApp_assoc]
            · simp only [hdone, Bool.false_eq_true, if_false, reduceIte] at hok
              cases hok
              simp [hjoin]
    · simp only [renderChildren, dif_neg h] at hok
      cases hok
      simp [joinPieces_nil, String.append_empty]

/-- With budget `Infinity` the loop always reports done (given that
child results at `Infinity` do). -/
theorem loop_none_done (R : Tree → Budget → Bool → Option (List (Option String)) →
    Except RErr (Tree × RResult × Nat))
    (hR : ∀ t st sv t' res n, R t none st sv = .ok (t', res, n) → res.done = true) :
    ∀ (g : Nat) kids i (a : String) filt st sv tag props lo,
    renderChildren R g kids i a filt none st sv tag props = .ok lo →
    lo.done = true := by
  intro g
  induction g with
  | zero =>
    intro kids i a filt st sv tag props lo hok
    exact absurd hok (by simp [renderChildren])
  | succ g ih =>
    intro kids i a filt st sv tag props lo hok
    by_cases h : i < kids.length
    · simp only [renderChildren, dif_pos h, budgetReached_none, Bool.false_eq_true,
        if_false, reduceIte, budgetSub_none] at hok
      cases hk : kids[i] with
      | prim p =>
        rw [hk] at hok
        cases p with
        | pother => simp at hok
        | pstr s =>
          simp only [] at hok
          cases htail : renderChildren R g kids (i + 1)
              (a ++ (applyFilter filt (primPiece st (.pstr s))).2)
              (applyFilter filt (primPiece st (.pstr s))).1 none st sv tag props with
          | error e => simp [htail] at hok
          | ok lo' =>
            rw [htail] at hok
            simp only [] at hok
            cases hok
            have hdd := ih _ _ _ _ _ _ _ _ _ htail
            exact hdd
        | pnum n =>
          simp only [] at hok
          cases htail : renderChildren R g kids (i + 1)
              (a ++ (applyFilter filt (primPiece st (.pnum n))).2)
              (applyFilter filt (primPiece st (.pnum n))).1 none st sv tag props with
          | error e => simp [htail] at hok
          | ok lo' =>
            rw [htail] at hok
            simp only [] at hok
            cases hok
            have hdd := ih _ _ _ _ _ _ _ _ _ htail
            exact hdd
      | node t =>
        rw [hk] at hok
        simp only [] at hok
        cases hres : R t none st
            (if sv.isSome then sv else getSelectValues tag props) with
        | error e => simp [hres] at hok
        | ok out =>
          obtain ⟨t', res, n⟩ := out
          rw [hres] at hok
          simp only [] at hok
          have hdone := hR _ _ _ _ _ _ hres
          simp only [hdone, if_true, reduceIte] at hok
          cases htail : renderChildren R g (kids.set i (.node t')) (i + 1)
              (a ++ (applyFilter filt res.text).2) (applyFilter filt res.text).1
              none st (if sv.isSome then sv else getSelectValues tag props)
              tag props with
          | error e => simp [htail] at hok
          | ok lo' =>
            rw [htail] at hok
            simp only [] at hok
            cases hok
            have hdd := ih _ _ _ _ _ _ _ _ _ htail
            exact hdd
    · simp only [renderChildren, dif_neg h] at hok
      cases hok
      rfl

/-- A loop that reports not-done leaves its index strictly inside its
children list: the stored `childIndex` points at the next unprocessed
child. -/
theorem loop_notdone_shape (R : Tree → Budget → Bool → Option (List (Option String)) →
    Except RErr (Tree × RResult × Nat)) :
    ∀ (g : Nat) kids i (a : String) filt len st sv tag props lo,
    renderChildren R g kids i a filt len st sv tag props = .ok lo →
    lo.done = false →
    lo.childIndex < lo.children.length := by
  intro g
  induction g with
  | zero =>
    intro kids i a filt len st sv tag props lo hok
    exact absurd hok (by simp [renderChildren])
  | succ g ih =>
    intro kids i a filt len st sv tag props lo hok hnd
    by_cases h : i < kids.length
    · simp only [renderChildren, dif_pos h] at hok
      by_cases hb : budgetReached a.length len
      · simp only [hb, if_true, reduceIte] at hok
        cases hok
        exact h
      · simp only [hb, Bool.false_eq_true, if_false, reduceIte] at hok
        cases hk : kids[i] with
        | prim p =>
          rw [hk] at hok
          cases p with
          | pother => simp at hok
          | pstr s =>
            simp only [] at hok
            cases htail : renderChildren R g kids (i + 1)
                (a ++ (applyFilter filt (primPiece st (.pstr s))).2)
                (applyFilter filt (primPiece st (.pstr s))).1 len st sv tag props with
            | error e => simp [htail] at hok
            | ok lo' =>
              rw [htail] at hok
              simp only [] at hok
              cases hok
              have hdd := ih _ _ _ _ _ _ _ _ _ _ htail hnd
              exact hdd
          | pnum n =>
            simp only [] at hok
            cases htail : renderChildren R g kids (i + 1)
                (a ++ (applyFilter filt (primPiece st (.pnum n))).2)
                (applyFilter filt (primPiece st (.pnum n))).1 len st sv tag props with
            | error e => simp [htail] at hok
            | ok lo' =>
              rw [htail] at hok
              simp only [] at hok
              cases hok
              have hdd := ih _ _ _ _ _ _ _ _ _ _ htail hnd
              exact hdd
        | node t =>
          rw [hk] at hok
          simp only [] at hok
          cases hres : R t (budgetSub len a.length) st
              (if sv.isSome then sv else getSelectValues tag props) with
          | error e => simp [hres] at hok
          | ok out =>
            obtain ⟨t', res, n⟩ := out
            rw [hres] at hok
            simp only [] at hok
            by_cases hdone : res.done
            · simp only [hdone, if_true, reduceIte] at hok
              cases htail : renderChildren R g (kids.set i (.node t')) (i + 1)
                  (a ++ (applyFilter filt res.text).2) (applyFilter filt res.text).1
                  len st (if sv.isSome then sv else getSelectValues tag props)
                  tag props with
              | error e => simp [htail] at hok
              | ok lo' =>
                rw [htail] at hok
                simp only [] at hok
                cases hok
                have hdd := ih _ _ _ _ _ _ _ _ _ _ htail hnd
                exact hdd
            · simp only [hdone, Bool.false_eq_true, if_false, reduceIte] at hok
              cases hok
              simpa using h
    · simp only [renderChildren, dif_neg h] at hok
      cases hok
      simp at hnd

/-- With a positive finite budget, a not-done loop has produced some
text (given that not-done child renders under positive budgets do). -/
theorem loop_nonempty (R : Tree → Budget → Bool → Option (List (Option String)) →
    Except RErr (Tree × RResult × Nat))
    (hR : ∀ t k st sv t' res n, 1 ≤ k → R t (some k) st sv = .ok (t', res, n) →
      res.done = false → res.text ≠ "") :
    ∀ (g : Nat) kids i (a : String) filt (k : Nat) st sv tag props lo, 1 ≤ k →
    renderChildren R g kids i a filt (some k) st sv tag props = .ok lo →
    lo.done = false →
    lo.text ≠ "" := by
  intro g
  induction g with
  | zero =>
    intro kids i a filt k st sv tag props lo _ hok
    exact absurd hok (by simp [renderChildren])
  | succ g ih =>
    intro kids i a filt k st sv tag props lo hk1 hok hnd
    by_cases h : i < kids.length
    · simp only [renderChildren, dif_pos h] at hok
      by_cases hb : budgetReached a.length (some k)
      · simp only [hb, if_true, reduceIte] at hok
        cases hok
        have : 1 ≤ a.length := by
          simp only [budgetReached, ge_iff_le, decide_eq_true_eq] at hb
          omega
        exact str_ne_empty_of_len a this
      · simp only [hb, Bool.false_eq_true, if_false, reduceIte] at hok
        cases hk : kids[i] with
        | prim p =>
          rw [hk] at hok
          cases p with
          | pother => simp at hok
          | pstr s =>
            simp only [] at hok
            cases htail : renderChildren R g kids (i + 1)
                (a ++ (applyFilter filt (primPiece st (.pstr s))).2)
                (applyFilter filt (primPiece st (.pstr s))).1 (some k) st sv tag props with
            | error e => simp [htail] at hok
            | ok lo' =>
              rw [htail] at hok
              simp only [] at hok
              cases hok
              have hdd := ih _ _ _ _ _ _ _ _ _ _ hk1 htail hnd
              exact hdd
          | pnum n =>
            simp only [] at hok
            cases htail : renderChildren R g kids (i + 1)
                (a ++ (applyFilter filt (primPiece st (.pnum n))).2)
                (applyFilter filt (primPiece st (.pnum n))).1 (some k) st sv tag props with
            | error e => simp [htail] at hok
            | ok lo' =>
              rw [htail] at hok
              simp only [] at hok
              cases hok
              have hdd := ih _ _ _ _ _ _ _ _ _ _ hk1 htail hnd
              exact hdd
        | node t =>
          rw [hk] at hok
          simp only [] at hok
          cases hres : R t (budgetSub (some k) a.length) st
              (if sv.isSome then sv else getSelectValues tag props) with
          | error e => simp [hres] at hok
          | ok out =>
            obtain ⟨t', res, n⟩ := out
            rw [hres] at hok
            simp only [] at hok
            by_cases hdone : res.done
            · simp only [hdone, if_true, reduceIte] at hok
              cases htail : renderChildren R g (kids.set i (.node t')) (i + 1)
                  (a ++ (applyFilter filt res.text).2) (applyFilter filt res.text).1
                  (some k) st (if sv.isSome then sv else getSelectValues tag props)
                  tag props with
              | error e => simp [htail] at hok
              | ok lo' =>
                rw [htail] at hok
                simp only [] at hok
                cases hok
                have hdd := ih _ _ _ _ _ _ _ _ _ _ hk1 htail hnd
                exact hdd
            · simp only [hdone, Bool.false_eq_true, if_false, reduceIte] at hok
              cases hok
              have hlt : a.length < k := by
                simp only [budgetReached, ge_iff_le, decide_eq_true_eq] at hb
                omega
              have hck : 1 ≤ k - a.length := by omega
              have hct := hR _ _ _ _ _ _ _ hck hres (by simpa using hdone)
              exact strApp_ne_empty_right _ _ (applyFilter_ne_empty _ _ hct)
    · simp only [renderChildren, dif_neg h] at hok
      cases hok
      simp at hnd

/-- The loop's child index never moves backwards. -/
theorem loop_index_ge (R : Tree → Budget → Bool → Option (List (Option String)) →
    Except RErr (Tree × RResult × Nat)) :
    ∀ (g : Nat) kids i (a : String) filt len st sv tag props lo,
    renderChildren R g kids i a filt len st sv tag props = .ok lo →
    i ≤ lo.childIndex := by
  intro g
  induction g with
  | zero =>
    intro kids i a filt len st sv tag props lo hok
    exact absurd hok (by simp [renderChildren])
  | succ g ih =>
    intro kids i a filt len st sv tag props lo hok
    by_cases h : i < kids.length
    · simp only [renderChildren, dif_pos h] at hok
      by_cases hb : budgetReached a.length len
      · simp only [hb, if_true, reduceIte] at hok
        cases hok
        exact Nat.le_refl i
      · simp only [hb, Bool.false_eq_true, if_false, reduceIte] at hok
        cases hk : kids[i] with
        | prim p =>
          rw [hk] at hok
          cases p with
          | pother => simp at hok
          | pstr s =>
            simp only [] at hok
            cases htail : renderChildren R g kids (i + 1)
                (a ++ (applyFilter filt (primPiece st (.pstr s))).2)
                (applyFilter filt (primPiece st (.pstr s))).1 len st sv tag props with
            | error e => simp [htail] at hok
            | ok lo' =>
              rw [htail] at hok
              simp only [] at hok
              cases hok
              have hdd := ih _ _ _ _ _ _ _ _ _ _ htail
              exact le_trans (Nat.le_succ i) hdd
          | pnum n =>
            simp only [] at hok
            cases htail : renderChildren R g kids (i + 1)
                (a ++ (applyFilter filt (primPiece st (.pnum n))).2)
                (applyFilter filt (primPiece st (.pnum n))).1 len st sv tag props with
            | error e => simp [htail] at hok
            | ok lo' =>
              rw [htail] at hok
              simp only [] at hok
              cases hok
              have hdd := ih _ _ _ _ _ _ _ _ _ _ htail
              exact le_trans (Nat.le_succ i) hdd
        | node t =>
          rw [hk] at hok
          simp only [] at hok
          cases hres : R t (budgetSub len a.length) st
              (if sv.isSome then sv else getSelectValues tag props) with
          | error e => simp [hres] at hok
          | ok out =>
            obtain ⟨t', res, n⟩ := out
            rw [hres] at hok
            simp only [] at hok
            by_cases hdone : res.done
            · simp only [hdone, if_true, reduceIte] at hok
              cases htail : renderChildren R g (kids.set i (.node t')) (i + 1)
                  (a ++ (applyFilter filt res.text).2) (applyFilter filt res.text).1
                  len st (if sv.isSome then sv else getSelectValues tag props)
                  tag props with
              | error e => simp [htail] at hok
              | ok lo' =>
                rw [htail] at hok
                simp only [] at hok
                cases hok
                have hdd := ih _ _ _ _ _ _ _ _ _ _ htail
                exact le_trans (Nat.le_succ i) hdd
            · simp only [hdone, Bool.false_eq_true, if_false, reduceIte] at hok
              cases hok
              exact Nat.le_refl i
    · simp only [renderChildren, dif_neg h] at hok
      cases hok
      exact Nat.le_refl i

/-- Normalizing the `selectValues` argument before entering the loop
does not change its outcome: the loop normalizes it again before each
child call, and normalization is idempotent. -/
theorem loop_sv_norm (R : Tree → Budget → Bool → Option (List (Option String)) →
    Except RErr (Tree × RResult × Nat)) :
    ∀ (g : Nat) kids i (a : String) filt len st sv tag props,
    renderChildren R g kids i a filt len st
        (if sv.isSome then sv else getSelectValues tag props) tag props
      = renderChildren R g kids i a filt len st sv tag props := by
  intro g
  have hnorm : ∀ (sv : Option (List (Option String))) (tag : String) (props : Props),
      (if (if sv.isSome then sv else getSelectValues tag props).isSome
        then (if sv.isSome then sv else getSelectValues tag props)
        else getSelectValues tag props)
      = (if sv.isSome then sv else getSelectValues tag props) := by
    intro sv tag props
    cases sv with
    | some v => rfl
    | none =>
      simp only [Option.isSome_none, Bool.false_eq_true, if_false, reduceIte]
      cases getSelectValues tag props <;> simp
  induction g with
  | zero => intro kids i a filt len st sv tag props; rfl
  | succ g ih =>
    intro kids i a filt len st sv tag props
    by_cases h : i < kids.length
    · simp only [renderChildren, dif_pos h]
      by_cases hb : budgetReached a.length len
      · simp [hb]
      · simp only [hb, Bool.false_eq_true, if_false, reduceIte]
        cases hk : kids[i] with
        | prim p =>
          cases p with
          | pother => rfl
          | pstr s =>
            simp only []
            rw [ih]
          | pnum n =>
            simp only []
            rw [ih]
        | node t =>
          simp only [hnorm]
    · simp only [renderChildren, dif_neg h]

/-- Decomposition of a budgeted loop run against the unlimited run from
the same state: a completed budgeted run produces exactly the unlimited
run's text, pieces and resolver count; a suspended one has produced a
prefix (of the text, of the piece list, and of the count), and resuming
the stored loop state with an unlimited budget produces exactly the
rest.  Generic in the child renderer `R`, whose budgeted runs must admit
the same decomposition. -/
theorem loop_decomp (R : Tree → Budget → Bool → Option (List (Option String)) →
    Except RErr (Tree × RResult × Nat))
    (hRd : ∀ t k st sv t₁ r₁ c₁ t₂ r₂ c₂,
      R t (some k) st sv = .ok (t₁, r₁, c₁) → R t none st sv = .ok (t₂, r₂, c₂) →
      (r₁.done = true → r₁.text = r₂.text ∧ r₁.pieces = r₂.pieces ∧ c₁ = c₂)
      ∧ (r₁.done = false → ∃ t₃ r₃ c₃, R t₁ none st sv = .ok (t₃, r₃, c₃)
          ∧ r₂.text = r₁.text ++ r₃.text ∧ r₂.pieces = r₁.pieces ++ r₃.pieces
          ∧ c₂ = c₁ + c₃))
    (hRj : ∀ t len st sv t' res n, R t len st sv = .ok (t', res, n) →
      res.text = joinPieces res.pieces)
    (hRn : ∀ t st sv t' res n, R t none st sv = .ok (t', res, n) → res.done = true) :
    ∀ (g : Nat) (k : Nat) (st : Bool) (tag : String) (props : Props)
      kids i (a : String) filt sv lo LO,
    renderChildren R g kids i a filt (some k) st sv tag props = .ok lo →
    renderChildren R g kids i a filt none st sv tag props = .ok LO →
    (lo.done = true → lo.text = LO.text ∧ lo.pieces = LO.pieces ∧ lo.count = LO.count)
    ∧ (lo.done = false → ∃ LO',
        renderChildren R g lo.children lo.childIndex "" lo.filter none st sv tag props
          = .ok LO'
        ∧ LO.text = lo.text ++ LO'.text ∧ LO.pieces = lo.pieces ++ LO'.pieces
        ∧ LO.count = lo.count + LO'.count) := by
  intro g k st tag props
  induction g with
  | zero =>
    intro kids i a filt sv lo LO hp hf
    exact absurd hp (by simp [renderChildren])
  | succ g ih =>
    intro kids i a filt sv lo LO hp hf
    by_cases h : i < kids.length
    · simp only [renderChildren, dif_pos h, budgetReached_none, Bool.false_eq_true,
        if_false, reduceIte, budgetSub_none] at hp hf
      by_cases hb : budgetReached a.length (some k)
      · -- the budget check fires: suspend with the state unchanged
        simp only [hb, if_true, reduceIte] at hp
        cases hp
        refine ⟨fun hcontra => by simp at hcontra, fun _ => ?_⟩
        -- the full run from the same state, with the accumulator split off
        have hshift := loop_shift R (g + 1) kids i a filt st sv tag props
        rw [show (renderChildren R (g + 1) kids i a filt none st sv tag props)
            = .ok LO from by
          simp only [renderChildren, dif_pos h, budgetReached_none, Bool.false_eq_true,
            if_false, reduceIte, budgetSub_none]
          exact hf] at hshift
        cases hbase : renderChildren R (g + 1) kids i "" filt none st sv tag props with
        | error e => rw [hbase] at hshift; simp [Except.map] at hshift
        | ok LO0 =>
          rw [hbase] at hshift
          simp only [Except.map] at hshift
          cases hshift
          exact ⟨LO0, rfl, rfl, rfl, (Nat.zero_add LO0.count).symm⟩
      · simp only [hb, Bool.false_eq_true, if_false, reduceIte] at hp hf
        cases hk : kids[i] with
        | prim p =>
          rw [hk] at hp hf
          cases p with
          | pother => simp at hp
          | pstr s =>
            simp only [] at hp hf
            cases htp : renderChildren R g kids (i + 1)
                (a ++ (applyFilter filt (primPiece st (.pstr s))).2)
                (applyFilter filt (primPiece st (.pstr s))).1 (some k) st sv tag props with
            | error e => simp [htp] at hp
            | ok lop =>
              cases htf : renderChildren R g kids (i + 1)
                  (a ++ (applyFilter filt (primPiece st (.pstr s))).2)
                  (applyFilter filt (primPiece st (.pstr s))).1 none st sv tag props with
              | error e => simp [htf] at hf
              | ok LOf =>
                rw [htp] at hp
                rw [htf] at hf
                simp only [] at hp hf
                cases hp
                cases hf
                obtain ⟨ihd, ihn⟩ := ih _ _ _ _ _ _ _ htp htf
                refine ⟨fun hdone => ?_, fun hnd => ?_⟩
                · obtain ⟨e₁, e₂, e₃⟩ := ihd hdone
                  exact ⟨e₁, by rw [e₂], e₃⟩
                · obtain ⟨LO', hres', e₁, e₂, e₃⟩ := ihn hnd
                  exact ⟨LO', loop_mono R g (g + 1) (Nat.le_succ g) _ _ _ _ _ _ _ _ _ _ hres',
                    e₁, by simp [e₂], e₃⟩
          | pnum n =>
            simp only [] at hp hf
            cases htp : renderChildren R g kids (i + 1)
                (a ++ (applyFilter filt (primPiece st (.pnum n))).2)
                (applyFilter filt (primPiece st (.pnum n))).1 (some k) st sv tag props with
            | error e => simp [htp] at hp
            | ok lop =>
              cases htf : renderChildren R g kids (i + 1)
                  (a ++ (applyFilter filt (primPiece st (.pnum n))).2)
                  (applyFilter filt (primPiece st (.pnum n))).1 none st sv tag props with
              | error e => simp [htf] at hf
              | ok LOf =>
                rw [htp] at hp
                rw [htf] at hf
                simp only [] at hp hf
                cases hp
                cases hf
                obtain ⟨ihd, ihn⟩ := ih _ _ _ _ _ _ _ htp htf
                refine ⟨fun hdone => ?_, fun hnd => ?_⟩
                · obtain ⟨e₁, e₂, e₃⟩ := ihd hdone
                  exact ⟨e₁, by rw [e₂], e₃⟩
                · obtain ⟨LO', hres', e₁, e₂, e₃⟩ := ihn hnd
                  exact ⟨LO', loop_mono R g (g + 1) (Nat.le_succ g) _ _ _ _ _ _ _ _ _ _ hres',
                    e₁, by simp [e₂], e₃⟩
        | node t =>
          rw [hk] at hp hf
          simp only [] at hp hf
          cases hcp : R t (budgetSub (some k) a.length) st
              (if sv.isSome then sv else getSelectValues tag props) with
          | error e => simp [hcp] at hp
          | ok outp =>
            obtain ⟨t₁, r₁, c₁⟩ := outp
            cases hcf : R t none st
                (if sv.isSome then sv else getSelectValues tag props) with
            | error e => simp [hcf] at hf
            | ok outf =>
              obtain ⟨t₂, r₂, c₂⟩ := outf
              rw [hcp] at hp
              rw [hcf] at hf
              simp only [] at hp hf
              have hr₂done : r₂.done = true := hRn _ _ _ _ _ _ hcf
              simp only [hr₂done, if_true, reduceIte] at hf
              obtain ⟨hcd, hcn⟩ := by
                refine hRd t (k - a.length) st
                  (if sv.isSome then sv else getSelectValues tag props)
                  t₁ r₁ c₁ t₂ r₂ c₂ ?_ hcf
                simpa [budgetSub] using hcp
              by_cases hdone : r₁.done
              · -- the child completed within budget: identical outputs, tails in lockstep
                obtain ⟨e₁, e₂, e₃⟩ := hcd hdone
                simp only [hdone, if_true, reduceIte] at hp
                rw [← e₁] at hf
                cases htp : renderChildren R g (kids.set i (.node t₁)) (i + 1)
                    (a ++ (applyFilter filt r₁.text).2) (applyFilter filt r₁.text).1
                    (some k) st (if sv.isSome then sv else getSelectValues tag props)
                    tag props with
                | error e => simp [htp] at hp
                | ok lop =>
                  cases htf : renderChildren R g (kids.set i (.node t₂)) (i + 1)
                      (a ++ (applyFilter filt r₁.text).2) (applyFilter filt r₁.text).1
                      none st (if sv.isSome then sv else getSelectValues tag props)
                      tag props with
                  | error e => simp [htf] at hf
                  | ok LOf =>
                    rw [htp] at hp
                    rw [htf] at hf
                    simp only [] at hp hf
                    cases hp
                    cases hf
                    -- canonicalize both tails over the un-`set` list
                    rw [loop_set_below R g kids i (i + 1) (.node t₁) _ _ _ _ _ _ _
                      (Nat.lt_succ_self i)] at htp
                    rw [loop_set_below R g kids i (i + 1) (.node t₂) _ _ _ _ _ _ _
                      (Nat.lt_succ_self i)] at htf
                    cases hbp : renderChildren R g kids (i + 1)
                        (a ++ (applyFilter filt r₁.text).2) (applyFilter filt r₁.text).1
                        (some k) st (if sv.isSome then sv else getSelectValues tag props)
                        tag props with
                    | error e => rw [hbp] at htp; simp [Except.map] at htp
                    | ok lop0 =>
                      cases hbf : renderChildren R g kids (i + 1)
                          (a ++ (applyFilter filt r₁.text).2) (applyFilter filt r₁.text).1
                          none st (if sv.isSome then sv else getSelectValues tag props)
                          tag props with
                      | error e => rw [hbf] at htf; simp [Except.map] at htf
                      | ok LOf0 =>
                        rw [hbp] at htp
                        rw [hbf] at htf
                        simp only [Except.map] at htp htf
                        cases htp
                        cases htf
                        obtain ⟨ihd, ihn⟩ := ih _ _ _ _ _ _ _ hbp hbf
                        refine ⟨fun hdd => ?_, fun hnd => ?_⟩
                        · obtain ⟨f₁, f₂, f₃⟩ := ihd (by simpa using hdd)
                          refine ⟨by simpa using f₁, ?_, ?_⟩
                          · simp only [e₂, f₂]
                          · simp only [e₃, f₃]
                        · obtain ⟨LO', hres', f₁, f₂, f₃⟩ := ihn (by simpa using hnd)
                          have hidx : i < lop0.childIndex :=
                            Nat.lt_of_lt_of_le (Nat.lt_succ_self i)
                              (loop_index_ge R g _ _ _ _ _ _ _ _ _ _ hbp)
                          refine ⟨{ LO' with children := LO'.children.set i (.node t₁) },
                            ?_, by simpa using f₁, ?_, ?_⟩
                          · rw [← loop_sv_norm R (g + 1) _ _ _ _ _ _ sv tag props,
                              loop_set_below R (g + 1) lop0.children i lop0.childIndex
                              (.node t₁) _ _ _ _ _ _ _ hidx,
                              loop_mono R g (g + 1) (Nat.le_succ g) _ _ _ _ _ _ _ _ _ _ hres']
                            rfl
                          · simp only [e₂]
                            simp [f₂]
                          · simp only [e₃]
                            simp [f₃]
                            omega
              · -- the child itself suspended
                obtain ⟨t₃, r₃, c₃, hres3, g₁, g₂, g₃⟩ := hcn (by simpa using hdone)
                simp only [hdone, Bool.false_eq_true, if_false, reduceIte] at hp
                cases hp
                refine ⟨fun hcontra => by simp at hcontra, fun _ => ?_⟩
                have hr₃done : r₃.done = true := hRn _ _ _ _ _ _ hres3
                -- filter bookkeeping for the split child text and pieces
                have hfsplit := applyFilter_append filt r₁.text r₃.text
                have hlsplit := applyFilterList_append filt r₁.pieces r₃.pieces
                have hstate : (applyFilterList filt r₁.pieces).1
                    = (applyFilter filt r₁.text).1 := by
                  rw [(applyFilterList_join filt r₁.pieces).1,
                    ← hRj _ _ _ _ _ _ _ hcp]
                -- the full run's tail, canonicalized
                rw [g₁, hfsplit] at hf
                cases htf : renderChildren R g (kids.set i (.node t₂)) (i + 1)
                    (a ++ ((applyFilter filt r₁.text).2
                      ++ (applyFilter (applyFilter filt r₁.text).1 r₃.text).2))
                    (applyFilter (applyFilter filt r₁.text).1 r₃.text).1 none st
                    (if sv.isSome then sv else getSelectValues tag props) tag props with
                | error e => rw [htf] at hf; simp at hf
                | ok LOf =>
                  rw [htf] at hf
                  simp only [] at hf
                  cases hf
                  rw [loop_set_below R g kids i (i + 1) (.node t₂) _ _ _ _ _ _ _
                    (Nat.lt_succ_self i),
                    loop_shift R g kids (i + 1) _ _ _ _ _ _] at htf
                  cases hbf : renderChildren R g kids (i + 1) ""
                      (applyFilter (applyFilter filt r₁.text).1 r₃.text).1 none st
                      (if sv.isSome then sv else getSelectValues tag props) tag props with
                  | error e => rw [hbf] at htf; simp [Except.map] at htf
                  | ok B =>
                    rw [hbf] at htf
                    simp only [Except.map] at htf
                    cases htf
                    -- build the resumed run explicitly
                    have hseti : i < (kids.set i (TChild.node t₁)).length := by
                      simpa using h
                    refine ⟨{ B with
                        children := B.children.set i (.node t₃),
                        text := (applyFilter (applyFilter filt r₁.text).1 r₃.text).2
                          ++ B.text,
                        pieces := (applyFilterList (applyFilter filt r₁.text).1
                          r₃.pieces).2 ++ B.pieces,
                        count := c₃ + B.count }, ?_, ?_, ?_, ?_⟩
                    · simp only [renderChildren, dif_pos hseti, budgetReached_none,
                        Bool.false_eq_true, if_false, reduceIte, budgetSub_none,
                        List.getElem_set_self (by simpa using h), hres3, hr₃done, if_true]
                      rw [List.set_set, loop_set_below R g kids i (i + 1) (.node t₃)
                          _ _ _ _ _ _ _ (Nat.lt_succ_self i),
                        loop_shift R g kids (i + 1) _ _ _ _ _ _, hbf]
                      simp [Except.map]
                    · simp only [strApp_assoc]
                    · simp only [g₂, hlsplit, hstate]
                      simp [List.append_assoc]
                    · simp only [g₃]
                      omega
    · simp only [renderChildren, dif_neg h] at hp hf
      cases hp
      cases hf
      exact ⟨fun _ => ⟨rfl, rfl, rfl⟩, fun hcontra => by simp at hcontra⟩

/-- `renderImpl`'s text is the concatenation of its pieces. -/
theorem renderImpl_join : ∀ (f : Nat) t len st sv t' res n,
    renderImpl f t len st sv = .ok (t', res, n) → res.text = joinPieces res.pieces := by
  intro f
  induction f with
  | zero =>
    intro t len st sv t' res n hp
    exact absurd hp (by simp [renderImpl])
  | succ f ih =>
    intro t len st sv t' res n hp
    simp only [renderImpl] at hp
    repeat' split at hp
    any_goals exact (Except.noConfusion hp)
    all_goals obtain ⟨h1, h2, h3⟩ := by simpa using hp
    all_goals subst h2
    any_goals simp [joinPieces_single]
    all_goals rename (renderChildren _ _ _ _ _ _ _ _ _ _ _ = _) => hlo
    all_goals
      have hj := loop_join _ (fun a b c d e u v hh => ih a b c d e u v hh)
        f _ _ _ _ _ _ _ _ _ _ hlo
    all_goals
      simp [*, joinPieces_append, joinPieces_single, joinPieces_cons, joinPieces_nil,
        strApp_assoc, String.append_empty]

/-! Accessor computation over the tree-update helpers (the tree argument
is often a variable, so these do not reduce definitionally). -/

@[simp] theorem Tree.element_withResolved (t : Tree) (e : Element) (c : Ctx) :
    (t.withResolved e c).element = e := by cases t; rfl

@[simp] theorem Tree.root_withResolved (t : Tree) (e : Element) (c : Ctx) :
    (t.withResolved e c).root = t.root := by cases t; rfl

@[simp] theorem Tree.context_withResolved (t : Tree) (e : Element) (c : Ctx) :
    (t.withResolved e c).context = c := by cases t; rfl

@[simp] theorem Tree.childIndex_withResolved (t : Tree) (e : Element) (c : Ctx) :
    (t.withResolved e c).childIndex = t.childIndex := by cases t; rfl

@[simp] theorem Tree.children_withResolved (t : Tree) (e : Element) (c : Ctx) :
    (t.withResolved e c).children = t.children := by cases t; rfl

@[simp] theorem Tree.filter_withResolved (t : Tree) (e : Element) (c : Ctx) :
    (t.withResolved e c).filter = t.filter := by cases t; rfl

@[simp] theorem Tree.element_withFilter (t : Tree) (f : Filter) :
    (t.withFilter f).element = t.element := by cases t; rfl

@[simp] theorem Tree.root_withFilter (t : Tree) (f : Filter) :
    (t.withFilter f).root = t.root := by cases t; rfl

@[simp] theorem Tree.context_withFilter (t : Tree) (f : Filter) :
    (t.withFilter f).context = t.context := by cases t; rfl

@[simp] theorem Tree.childIndex_withFilter (t : Tree) (f : Filter) :
    (t.withFilter f).childIndex = t.childIndex := by cases t; rfl

@[simp] theorem Tree.children_withFilter (t : Tree) (f : Filter) :
    (t.withFilter f).children = t.children := by cases t; rfl

@[simp] theorem Tree.filter_withFilter (t : Tree) (f : Filter) :
    (t.withFilter f).filter = f := by cases t; rfl

@[simp] theorem Tree.element_withKids (t : Tree) (k : List TChild) :
    (t.withKids k).element = t.element := by cases t; rfl

@[simp] theorem Tree.root_withKids (t : Tree) (k : List TChild) :
    (t.withKids k).root = t.root := by cases t; rfl

@[simp] theorem Tree.context_withKids (t : Tree) (k : List TChild) :
    (t.withKids k).context = t.context := by cases t; rfl

@[simp] theorem Tree.childIndex_withKids (t : Tree) (k : List TChild) :
    (t.withKids k).childIndex = t.childIndex := by cases t; rfl

@[simp] theorem Tree.children_withKids (t : Tree) (k : List TChild) :
    (t.withKids k).children = some k := by cases t; rfl

@[simp] theorem Tree.filter_withKids (t : Tree) (k : List TChild) :
    (t.withKids k).filter = t.filter := by cases t; rfl

@[simp] theorem Tree.element_afterLoop (t : Tree) (i : Nat) (f : Filter)
    (k : Option (List TChild)) : (t.afterLoop i f k).element = t.element := by
  cases t; rfl

@[simp] theorem Tree.root_afterLoop (t : Tree) (i : Nat) (f : Filter)
    (k : Option (List TChild)) : (t.afterLoop i f k).root = t.root := by
  cases t; rfl

@[simp] theorem Tree.context_afterLoop (t : Tree) (i : Nat) (f : Filter)
    (k : Option (List TChild)) : (t.afterLoop i f k).context = t.context := by
  cases t; rfl

@[simp] theorem Tree.childIndex_afterLoop (t : Tree) (i : Nat) (f : Filter)
    (k : Option (List TChild)) : (t.afterLoop i f k).childIndex = some i := by
  cases t; rfl

@[simp] theorem Tree.children_afterLoop (t : Tree) (i : Nat) (f : Filter)
    (k : Option (List TChild)) : (t.afterLoop i f k).children = k := by
  cases t; rfl

@[simp] theorem Tree.filter_afterLoop (t : Tree) (i : Nat) (f : Filter)
    (k : Option (List TChild)) : (t.afterLoop i f k).filter = f := by
  cases t; rfl

/-- `initFilter` never produces the uninitialized state. -/
theorem initFilter_ne_unset (f : Filter) (tag : String) :
    initFilter f tag ≠ .unset := by
  cases f <;> simp [initFilter] <;> split <;> simp

/-- `initFilter` is the identity on initialized filters. -/
theorem initFilter_of_ne_unset (f : Filter) (tag : String) (h : f ≠ .unset) :
    initFilter f tag = f := by
  cases f with
  | unset => exact absurd rfl h
  | identity => rfl
  | nlFresh => rfl
  | nlDone => rfl

/-- The loop keeps the filter initialized. -/
theorem loop_filter_ne_unset (R : Tree → Budget → Bool → Option (List (Option String)) →
    Except RErr (Tree × RResult × Nat)) :
    ∀ (g : Nat) kids i (a : String) filt len st sv tag props lo,
    filt ≠ .unset →
    renderChildren R g kids i a filt len st sv tag props = .ok lo →
    lo.filter ≠ .unset := by
  intro g
  induction g with
  | zero =>
    intro kids i a filt len st sv tag props lo _ hok
    exact absurd hok (by simp [renderChildren])
  | succ g ih =>
    intro kids i a filt len st sv tag props lo hne hok
    by_cases h : i < kids.length
    · simp only [renderChildren, dif_pos h] at hok
      by_cases hb : budgetReached a.length len
      · simp only [hb, if_true, reduceIte] at hok
        cases hok
        exact hne
      · simp only [hb, Bool.false_eq_true, if_false, reduceIte] at hok
        cases hk : kids[i] with
        | prim p =>
          rw [hk] at hok
          cases p with
          | pother => simp at hok
          | pstr s =>
            simp only [] at hok
            cases htail : renderChildren R g kids (i + 1)
                (a ++ (applyFilter filt (primPiece st (.pstr s))).2)
                (applyFilter filt (primPiece st (.pstr s))).1 len st sv tag props with
            | error e => simp [htail] at hok
            | ok lo' =>
              rw [htail] at hok
              simp only [] at hok
              cases hok
              have hdd := ih _ _ _ _ _ _ _ _ _ _ (applyFilter_ne_unset _ _ hne) htail
              exact hdd
          | pnum n =>
            simp only [] at hok
            cases htail : renderChildren R g kids (i + 1)
                (a ++ (applyFilter filt (primPiece st (.pnum n))).2)
                (applyFilter filt (primPiece st (.pnum n))).1 len st sv tag props with
            | error e => simp [htail] at hok
            | ok lo' =>
              rw [htail] at hok
              simp only [] at hok
              cases hok
              have hdd := ih _ _ _ _ _ _ _ _ _ _ (applyFilter_ne_unset _ _ hne) htail
              exact hdd
        | node t =>
          rw [hk] at hok
          simp only [] at hok
          cases hres : R t (budgetSub len a.length) st
              (if sv.isSome then sv else getSelectValues tag props) with
          | error e => simp [hres] at hok
          | ok out =>
            obtain ⟨t', res, n⟩ := out
            rw [hres] at hok
            simp only [] at hok
            by_cases hdone : res.done
            · simp only [hdone, if_true, reduceIte] at hok
              cases htail : renderChildren R g (kids.set i (.node t')) (i + 1)
                  (a ++ (applyFilter filt res.text).2) (applyFilter filt res.text).1
                  len st (if sv.isSome then sv else getSelectValues tag props)
                  tag props with
              | error e => simp [htail] at hok
              | ok lo' =>
                rw [htail] at hok
                simp only [] at hok
                cases hok
                have hdd := ih _ _ _ _ _ _ _ _ _ _ (applyFilter_ne_unset _ _ hne) htail
                exact hdd
            · simp only [hdone, Bool.false_eq_true, if_false, reduceIte] at hok
              cases hok
              exact applyFilter_ne_unset _ _ hne
    · simp only [renderChildren, dif_neg h] at hok
      cases hok
      exact hne

/-- At budget `Infinity`, a successful `renderImpl` call reports done. -/
theorem renderImpl_none_done : ∀ (f : Nat) t st sv t' res n,
    renderImpl f t none st sv = .ok (t', res, n) → res.done = true := by
  intro f
  induction f with
  | zero =>
    intro t st sv t' res n hp
    exact absurd hp (by simp [renderImpl])
  | succ f ih =>
    intro t st sv t' res n hp
    simp only [renderImpl] at hp
    repeat' split at hp
    any_goals exact (Except.noConfusion hp)
    all_goals obtain ⟨h1, h2, h3⟩ := by simpa using hp
    all_goals subst h2
    any_goals rfl
    all_goals rename (renderChildren _ _ _ _ _ _ _ _ _ _ _ = _) => hlo
    all_goals rename (¬ LoopOut.done _ = true) => hnd
    all_goals exact absurd (loop_none_done _
      (fun a b c d e u hh => ih a b c d e u hh) f _ _ _ _ _ _ _ _ _ hlo) hnd

/-- With a positive finite budget, a not-done `renderImpl` result carries
nonempty text: some progress is always made before suspending. -/
theorem renderImpl_nonempty : ∀ (f : Nat) t (k : Nat) st sv t' res n, 1 ≤ k →
    renderImpl f t (some k) st sv = .ok (t', res, n) →
    res.done = false → res.text ≠ "" := by
  intro f
  induction f with
  | zero =>
    intro t k st sv t' res n _ hp
    exact absurd hp (by simp [renderImpl])
  | succ f ih =>
    intro t k st sv t' res n hk hp hnd
    simp only [renderImpl] at hp
    repeat' split at hp
    any_goals exact (Except.noConfusion hp)
    all_goals obtain ⟨h1, h2, h3⟩ := by simpa using hp
    all_goals subst h2
    any_goals simp at hnd
    all_goals rename (¬ LoopOut.done _ = true) => hd
    all_goals rename (renderChildren _ _ _ _ _ _ _ _ _ _ _ = _) => hlo
    all_goals simp only []
    all_goals have hdf := Bool.eq_false_iff.mpr hd
    all_goals refine loop_nonempty _ ?_ f _ _ _ _ _ _ _ _ _ _ hk hlo hdf
    all_goals exact fun a b c d e u v hb hh => ih a b c d e u v hb hh

/-- A not-done `renderImpl` result leaves the tree with a stored children
list and a child index pointing at the next unprocessed child. -/
theorem renderImpl_notdone_shape : ∀ (f : Nat) t len st sv t' res n,
    renderImpl f t len st sv = .ok (t', res, n) → res.done = false →
    ∃ i kids, t'.childIndex = some i ∧ t'.children = some kids ∧
      i < kids.length := by
  intro f
  induction f with
  | zero =>
    intro t len st sv t' res n hp
    exact absurd hp (by simp [renderImpl])
  | succ f _ =>
    intro t len st sv t' res n hp hnd
    simp only [renderImpl] at hp
    repeat' split at hp
    any_goals exact (Except.noConfusion hp)
    all_goals obtain ⟨h1, h2, h3⟩ := by simpa using hp
    all_goals subst h2
    any_goals simp at hnd
    all_goals subst h1
    all_goals rename (¬ LoopOut.done _ = true) => hd
    all_goals rename (renderChildren _ _ _ _ _ _ _ _ _ _ _ = _) => hlo
    all_goals have hdf := Bool.eq_false_iff.mpr hd
    all_goals exact ⟨_, _, by simp, by simp,
      loop_notdone_shape _ f _ _ _ _ _ _ _ _ _ _ hlo hdf⟩

set_option maxHeartbeats 1600000 in
/-- Decomposition of a budgeted `renderImpl` run against the unlimited
run from the same tree: a completed budgeted run produces exactly the
unlimited run's text, pieces and resolver count, and a suspended one has
produced a prefix of each, the unlimited rerun on the suspended tree
producing exactly the rest. -/
theorem renderImpl_decomp : ∀ (f : Nat) t (k : Nat) st sv t₁ r₁ c₁ t₂ r₂ c₂,
    renderImpl f t (some k) st sv = .ok (t₁, r₁, c₁) →
    renderImpl f t none st sv = .ok (t₂, r₂, c₂) →
    (r₁.done = true → r₁.text = r₂.text ∧ r₁.pieces = r₂.pieces ∧ c₁ = c₂)
    ∧ (r₁.done = false → ∃ t₃ r₃ c₃, renderImpl f t₁ none st sv = .ok (t₃, r₃, c₃)
        ∧ r₂.text = r₁.text ++ r₃.text ∧ r₂.pieces = r₁.pieces ++ r₃.pieces
        ∧ c₂ = c₁ + c₃) := by
  intro f
  induction f with
  | zero =>
    intro t k st sv t₁ r₁ c₁ t₂ r₂ c₂ hp
    exact absurd hp (by simp [renderImpl])
  | succ f ih =>
    intro t k st sv t₁ r₁ c₁ t₂ r₂ c₂ hp hf
    simp only [renderImpl] at hp hf
    cases hg : getNativeComponent (f + 1) t.element t.context with
    | error e =>
      rw [hg] at hp
      exact (Except.noConfusion hp)
    | ok trip =>
      obtain ⟨r, ctx', cnt⟩ := trip
      rw [hg] at hp hf
      cases r with
      | rundef =>
        simp only [] at hp
        exact (Except.noConfusion hp)
      | rfalse =>
        simp only [] at hp hf
        obtain ⟨ha1, ha2, ha3⟩ := by simpa using hp
        obtain ⟨hb1, hb2, hb3⟩ := by simpa using hf
        subst ha2 ha3 hb2 hb3
        exact ⟨fun _ => ⟨rfl, rfl, rfl⟩, fun hc => by simp at hc⟩
      | rnull =>
        simp only [] at hp hf
        obtain ⟨ha1, ha2, ha3⟩ := by simpa using hp
        obtain ⟨hb1, hb2, hb3⟩ := by simpa using hf
        subst ha2 ha3 hb2 hb3
        exact ⟨fun _ => ⟨rfl, rfl, rfl⟩, fun hc => by simp at hc⟩
      | rhost rawTag props =>
        simp only [] at hp hf
        split at hp
        · rename_i hv
          rw [if_pos hv] at hf
          obtain ⟨ha1, ha2, ha3⟩ := by simpa using hp
          obtain ⟨hb1, hb2, hb3⟩ := by simpa using hf
          subst ha2 ha3 hb2 hb3
          exact ⟨fun _ => ⟨rfl, rfl, rfl⟩, fun hc => by simp at hc⟩
        · rename_i hv
          rw [if_neg hv] at hf
          split at hp
          · rename_i hta
            rw [if_pos hta] at hf
            obtain ⟨ha1, ha2, ha3⟩ := by simpa using hp
            obtain ⟨hb1, hb2, hb3⟩ := by simpa using hf
            subst ha2 ha3 hb2 hb3
            exact ⟨fun _ => ⟨rfl, rfl, rfl⟩, fun hc => by simp at hc⟩
          · rename_i hta
            rw [if_neg hta] at hf
            split at hp
            · rename_i hdsi
              rw [if_pos hdsi] at hf
              obtain ⟨ha1, ha2, ha3⟩ := by simpa using hp
              obtain ⟨hb1, hb2, hb3⟩ := by simpa using hf
              subst ha2 ha3 hb2 hb3
              exact ⟨fun _ => ⟨rfl, rfl, rfl⟩, fun hc => by simp at hc⟩
            · rename_i hdsi
              rw [if_neg hdsi] at hf
              split at hp
              · rename_i hcf
                rw [if_pos hcf] at hf
                obtain ⟨ha1, ha2, ha3⟩ := by simpa using hp
                obtain ⟨hb1, hb2, hb3⟩ := by simpa using hf
                subst ha2 ha3 hb2 hb3
                exact ⟨fun _ => ⟨rfl, rfl, rfl⟩, fun hc => by simp at hc⟩
              · rename_i hcf
                rw [if_neg hcf] at hf
                cases hc : props.children
                case str s =>
                  rw [hc] at hp hf
                  simp only [] at hp hf
                  obtain ⟨ha1, ha2, ha3⟩ := by simpa using hp
                  obtain ⟨hb1, hb2, hb3⟩ := by simpa using hf
                  subst ha2 ha3 hb2 hb3
                  exact ⟨fun _ => ⟨rfl, rfl, rfl⟩, fun hc2 => by simp at hc2⟩
                case num n =>
                  rw [hc] at hp hf
                  simp only [] at hp hf
                  split at hp
                  · exact (Except.noConfusion hp)
                  · rename_i hnl
                    rw [if_neg hnl] at hf
                    obtain ⟨ha1, ha2, ha3⟩ := by simpa using hp
                    obtain ⟨hb1, hb2, hb3⟩ := by simpa using hf
                    subst ha2 ha3 hb2 hb3
                    exact ⟨fun _ => ⟨rfl, rfl, rfl⟩, fun hc2 => by simp at hc2⟩
                all_goals (
                  rw [hc] at hp hf
                  simp only [Tree.childIndex_withFilter,
                    Tree.childIndex_withResolved] at hp hf
                  cases hci : t.childIndex <;>
                    rw [hci] at hp hf <;>
                    simp only [Tree.children_withKids, Tree.children_withFilter,
                      Tree.children_withResolved] at hp hf <;>
                    cases hch : t.children <;>
                    (try rw [hch] at hp hf) <;>
                    (try simp only [] at hp hf)
                  all_goals (
                    first
                    | exact (Except.noConfusion hp)
                    | (split at hp
                       · exact (Except.noConfusion hp)
                       · rename_i lo hlop
                         split at hf
                         · exact (Except.noConfusion hf)
                         · rename_i LO hlof
                           have hLOd : LO.done = true := loop_none_done _
                             (fun a b c d e g hx => renderImpl_none_done f a b c d e g hx)
                             f _ _ _ _ _ _ _ _ _ hlof
                           rw [if_pos hLOd] at hf
                           obtain ⟨hb1, hb2, hb3⟩ := by simpa using hf
                           subst hb2 hb3
                           have hdec := loop_decomp (fun t l s v => renderImpl f t l s v)
                             (fun a b c d e g h i j l hx hy => ih a b c d e g h i j l hx hy)
                             (fun a b c d e g h hx => renderImpl_join f a b c d e g h hx)
                             (fun a b c d e g hx => renderImpl_none_done f a b c d e g hx)
                             f k st _ _ _ _ _ _ _ _ _ hlop hlof
                           by_cases hld : lo.done = true
                           · rw [if_pos hld] at hp
                             obtain ⟨ha1, ha2, ha3⟩ := by simpa using hp
                             subst ha2 ha3
                             obtain ⟨hT, hP, hC⟩ := hdec.1 hld
                             exact ⟨fun _ => ⟨by simp [hT], by simp [hP], by simp [hC]⟩,
                               fun hcontra => by simp at hcontra⟩
                           · rw [if_neg hld] at hp
                             obtain ⟨ha1, ha2, ha3⟩ := by simpa using hp
                             subst ha2 ha3
                             obtain ⟨LO', hres, hT, hP, hC⟩ :=
                               hdec.2 (Bool.eq_false_iff.mpr hld)
                             have hne : lo.filter ≠ .unset :=
                               loop_filter_ne_unset _ f _ _ _ _ _ _ _ _ _ _
                                 (by simp [initFilter_ne_unset]) hlop
                             have hLOd2 : LO'.done = true := loop_none_done _
                               (fun a b c d e g hx => renderImpl_none_done f a b c d e g hx)
                               f _ _ _ _ _ _ _ _ _ hres
                             have hrec : ∃ t₃, renderImpl (f + 1) t₁ none st sv =
                                 .ok (t₃, ⟨true,
                                   LO'.text ++ ("</" ++ jsToLower rawTag ++ ">"),
                                   LO'.pieces ++ ["</" ++ jsToLower rawTag ++ ">"]⟩,
                                   0 + LO'.count) := by
                               rw [← ha1]
                               exact ⟨_, by
                                 simp only [renderImpl, Resolved.toElement,
                                   getNativeComponent, Tree.element_afterLoop,
                                   Tree.element_withKids, Tree.element_withFilter,
                                   Tree.element_withResolved, Tree.context_afterLoop,
                                   Tree.context_withKids, Tree.context_withFilter,
                                   Tree.context_withResolved]
                                 rw [if_neg hv]
                                 rw [if_neg hta]
                                 rw [if_neg hdsi]
                                 rw [if_neg hcf]
                                 rw [hc]
                                 simp only [Tree.filter_afterLoop, Tree.filter_withKids,
                                   Tree.filter_withFilter, Tree.filter_withResolved,
                                   Tree.childIndex_afterLoop, Tree.childIndex_withKids,
                                   Tree.childIndex_withFilter, Tree.childIndex_withResolved,
                                   Tree.children_afterLoop, Tree.children_withKids,
                                   Tree.children_withFilter, Tree.children_withResolved]
                                 rw [initFilter_of_ne_unset _ _ hne]
                                 rw [hres]
                                 simp only []
                                 rw [if_pos hLOd2]⟩
                             obtain ⟨t₃, hrec⟩ := hrec
                             refine ⟨fun hcontra => by simp at hcontra,
                               fun _ => ⟨t₃, _, _, hrec, ?_, ?_, ?_⟩⟩
                             · simp [hT, strApp_assoc]
                             · simp [hP]
                             · simp only [hC]
                               omega)))

/-- If the unlimited loop run succeeds, so does every budgeted run from
the same state.  Generic in the child renderer `R`: budgeted child runs
must succeed whenever the unlimited one does, a completed budgeted child
run must agree with the unlimited one, and unlimited child runs report
done. -/
theorem loop_success (R : Tree → Budget → Bool → Option (List (Option String)) →
    Except RErr (Tree × RResult × Nat))
    (hRs : ∀ t st sv t₂ r₂ c₂, R t none st sv = .ok (t₂, r₂, c₂) →
      ∀ (k : Nat), ∃ o, R t (some k) st sv = .ok o)
    (hRd : ∀ t (k : Nat) st sv t₁ r₁ c₁ t₂ r₂ c₂,
      R t (some k) st sv = .ok (t₁, r₁, c₁) → R t none st sv = .ok (t₂, r₂, c₂) →
      r₁.done = true → r₁.text = r₂.text ∧ r₁.pieces = r₂.pieces ∧ c₁ = c₂)
    (hRn : ∀ t st sv t' res n, R t none st sv = .ok (t', res, n) → res.done = true) :
    ∀ (g : Nat) (st : Bool) (tag : String) (props : Props) kids i (a : String)
      filt sv LO,
    renderChildren R g kids i a filt none st sv tag props = .ok LO →
    ∀ (k : Nat), ∃ lo,
      renderChildren R g kids i a filt (some k) st sv tag props = .ok lo := by
  intro g st tag props
  induction g with
  | zero =>
    intro kids i a filt sv LO hf
    exact absurd hf (by simp [renderChildren])
  | succ g ih =>
    intro kids i a filt sv LO hf k
    by_cases h : i < kids.length
    · simp only [renderChildren, dif_pos h, budgetReached_none, Bool.false_eq_true,
        if_false, reduceIte, budgetSub_none] at hf
      by_cases hb : budgetReached a.length (some k)
      · exact ⟨⟨kids, i, filt, false, a, [], 0⟩,
          by simp only [renderChildren, dif_pos h, hb, if_true, reduceIte]⟩
      · cases hk : kids[i] with
        | prim p =>
          rw [hk] at hf
          cases p with
          | pother => simp at hf
          | pstr s =>
            simp only [] at hf
            cases htf : renderChildren R g kids (i + 1)
                (a ++ (applyFilter filt (primPiece st (.pstr s))).2)
                (applyFilter filt (primPiece st (.pstr s))).1 none st sv tag props with
            | error e => simp [htf] at hf
            | ok LOf =>
              obtain ⟨lop, htp⟩ := ih _ _ _ _ _ _ htf k
              refine ⟨{ lop with
                pieces := (applyFilter filt (primPiece st (.pstr s))).2 :: lop.pieces },
                ?_⟩
              simp only [renderChildren, dif_pos h, hb, Bool.false_eq_true, if_false,
                reduceIte, hk]
              rw [htp]
          | pnum n =>
            simp only [] at hf
            cases htf : renderChildren R g kids (i + 1)
                (a ++ (applyFilter filt (primPiece st (.pnum n))).2)
                (applyFilter filt (primPiece st (.pnum n))).1 none st sv tag props with
            | error e => simp [htf] at hf
            | ok LOf =>
              obtain ⟨lop, htp⟩ := ih _ _ _ _ _ _ htf k
              refine ⟨{ lop with
                pieces := (applyFilter filt (primPiece st (.pnum n))).2 :: lop.pieces },
                ?_⟩
              simp only [renderChildren, dif_pos h, hb, Bool.false_eq_true, if_false,
                reduceIte, hk]
              rw [htp]
        | node t =>
          rw [hk] at hf
          simp only [] at hf
          cases hcf : R t none st
              (if sv.isSome then sv else getSelectValues tag props) with
          | error e => simp [hcf] at hf
          | ok outf =>
            obtain ⟨t₂, r₂, c₂⟩ := outf
            rw [hcf] at hf
            simp only [] at hf
            have hr₂done : r₂.done = true := hRn _ _ _ _ _ _ hcf
            simp only [hr₂done, if_true, reduceIte] at hf
            obtain ⟨⟨t₁, r₁, c₁⟩, hcp⟩ := hRs _ _ _ _ _ _ hcf (k - a.length)
            have hcp2 : R t (budgetSub (some k) a.length) st
                (if sv.isSome then sv else getSelectValues tag props)
                = .ok (t₁, r₁, c₁) := by simpa [budgetSub] using hcp
            by_cases hdone : r₁.done = true
            · obtain ⟨e₁, e₂, e₃⟩ := hRd _ _ _ _ _ _ _ _ _ _ hcp2 hcf hdone
              cases htf : renderChildren R g (kids.set i (.node t₂)) (i + 1)
                  (a ++ (applyFilter filt r₂.text).2) (applyFilter filt r₂.text).1
                  none st (if sv.isSome then sv else getSelectValues tag props)
                  tag props with
              | error e => simp [htf] at hf
              | ok LOf =>
                rw [loop_set_below R g kids i (i + 1) (.node t₂) _ _ _ _ _ _ _
                  (Nat.lt_succ_self i)] at htf
                cases hbf : renderChildren R g kids (i + 1)
                    (a ++ (applyFilter filt r₂.text).2) (applyFilter filt r₂.text).1
                    none st (if sv.isSome then sv else getSelectValues tag props)
                    tag props with
                | error e => rw [hbf] at htf; simp [Except.map] at htf
                | ok Bf =>
                  obtain ⟨lopb, htpb⟩ := ih _ _ _ _ _ _ hbf k
                  refine ⟨{ lopb with
                    children := lopb.children.set i (.node t₁),
                    pieces := (applyFilterList filt r₁.pieces).2 ++ lopb.pieces,
                    count := c₁ + lopb.count }, ?_⟩
                  simp only [renderChildren, dif_pos h, hb, Bool.false_eq_true,
                    if_false, reduceIte, hk]
                  rw [hcp2]
                  simp only [hdone, if_true, reduceIte]
                  rw [e₁]
                  rw [loop_set_below R g kids i (i + 1) (.node t₁) _ _ _ _ _ _ _
                    (Nat.lt_succ_self i)]
                  rw [htpb]
                  simp [Except.map]
            · refine ⟨⟨kids.set i (.node t₁), i, (applyFilter filt r₁.text).1, false,
                a ++ (applyFilter filt r₁.text).2, (applyFilterList filt r₁.pieces).2,
                c₁⟩, ?_⟩
              simp only [renderChildren, dif_pos h, hb, Bool.false_eq_true, if_false,
                reduceIte, hk]
              rw [hcp2]
              simp only [hdone, Bool.false_eq_true, if_false, reduceIte]
    · exact ⟨⟨kids, i, filt, true, a, [], 0⟩,
        by simp only [renderChildren, dif_neg h]⟩

set_option maxHeartbeats 1600000 in
/-- If the unlimited `renderImpl` run succeeds, so does the budgeted run
from the same tree, for every finite budget (with the same fuel). -/
theorem renderImpl_success : ∀ (f : Nat) t st sv t₂ r₂ c₂,
    renderImpl f t none st sv = .ok (t₂, r₂, c₂) →
    ∀ (k : Nat), ∃ o, renderImpl f t (some k) st sv = .ok o := by
  intro f
  induction f with
  | zero =>
    intro t st sv t₂ r₂ c₂ hf
    exact absurd hf (by simp [renderImpl])
  | succ f ih =>
    intro t st sv t₂ r₂ c₂ hf k
    simp only [renderImpl] at hf
    cases hg : getNativeComponent (f + 1) t.element t.context with
    | error e =>
      rw [hg] at hf
      exact (Except.noConfusion hf)
    | ok trip =>
      obtain ⟨r, ctx', cnt⟩ := trip
      rw [hg] at hf
      cases r with
      | rundef =>
        simp only [] at hf
        exact (Except.noConfusion hf)
      | rfalse =>
        exact ⟨_, by
          simp only [renderImpl]
          rw [hg]⟩
      | rnull =>
        exact ⟨_, by
          simp only [renderImpl]
          rw [hg]⟩
      | rhost rawTag props =>
        simp only [] at hf
        split at hf
        · rename_i hv
          exact ⟨_, by
            simp only [renderImpl]
            rw [hg]
            simp only []
            rw [if_pos hv]⟩
        · rename_i hv
          split at hf
          · rename_i hta
            exact ⟨_, by
              simp only [renderImpl]
              rw [hg]
              simp only []
              rw [if_neg hv, if_pos hta]⟩
          · rename_i hta
            split at hf
            · rename_i hdsi
              exact ⟨_, by
                simp only [renderImpl]
                rw [hg]
                simp only []
                rw [if_neg hv, if_neg hta, if_pos hdsi]⟩
            · rename_i hdsi
              split at hf
              · rename_i hcf
                exact ⟨_, by
                  simp only [renderImpl]
                  rw [hg]
                  simp only []
                  rw [if_neg hv, if_neg hta, if_neg hdsi, if_pos hcf]⟩
              · rename_i hcf
                cases hc : props.children
                case str s =>
                  exact ⟨_, by
                    simp only [renderImpl]
                    rw [hg]
                    simp only []
                    rw [if_neg hv, if_neg hta, if_neg hdsi, if_neg hcf, hc]⟩
                case num n =>
                  rw [hc] at hf
                  simp only [] at hf
                  split at hf
                  · exact (Except.noConfusion hf)
                  · rename_i hnl
                    exact ⟨_, by
                      simp only [renderImpl]
                      rw [hg]
                      simp only []
                      rw [if_neg hv, if_neg hta, if_neg hdsi, if_neg hcf, hc]
                      simp only []
                      rw [if_neg hnl]⟩
                all_goals (
                  rw [hc] at hf
                  simp only [Tree.childIndex_withFilter,
                    Tree.childIndex_withResolved] at hf
                  cases hci : t.childIndex <;>
                    rw [hci] at hf <;>
                    simp only [Tree.children_withKids, Tree.children_withFilter,
                      Tree.children_withResolved] at hf <;>
                    cases hch : t.children <;>
                    (try rw [hch] at hf) <;>
                    (try simp only [] at hf)
                  all_goals (
                    first
                    | exact (Except.noConfusion hf)
                    | (split at hf
                       · exact (Except.noConfusion hf)
                       · rename_i LO hlof
                         obtain ⟨lop, hlop⟩ := loop_success
                           (fun t l s v => renderImpl f t l s v)
                           (fun a b c d e g hh => ih a b c d e g hh)
                           (fun a b c d e g h2 i2 j2 l2 hx hy =>
                             (renderImpl_decomp f a b c d e g h2 i2 j2 l2 hx hy).1)
                           (fun a b c d e g hx => renderImpl_none_done f a b c d e g hx)
                           f st _ _ _ _ _ _ _ _ hlof k
                         by_cases hlod : lop.done = true
                         · exact ⟨_, by
                             simp only [renderImpl]
                             rw [hg]
                             simp only []
                             rw [if_neg hv, if_neg hta, if_neg hdsi, if_neg hcf, hc]
                             simp only [Tree.childIndex_withFilter,
                               Tree.childIndex_withResolved, hci,
                               Tree.children_withKids, Tree.children_withFilter,
                               Tree.children_withResolved]
                             try simp only [hch]
                             rw [hlop]
                             simp only []
                             rw [if_pos hlod]⟩
                         · exact ⟨_, by
                             simp only [renderImpl]
                             rw [hg]
                             simp only []
                             rw [if_neg hv, if_neg hta, if_neg hdsi, if_neg hcf, hc]
                             simp only [Tree.childIndex_withFilter,
                               Tree.childIndex_withResolved, hci,
                               Tree.children_withKids, Tree.children_withFilter,
                               Tree.children_withResolved]
                             try simp only [hch]
                             rw [hlop]
                             simp only []
                             rw [if_neg hlod]⟩)))

theorem str_empty_of_length_zero (s : String) (h : s.length = 0) : s = "" := by
  cases s with
  | mk data =>
    cases data with
    | nil => rfl
    | cons c cs => simp [String.length] at h

/-- Soundness of arbitrary budget schedules: any successful incremental
run (one `renderImpl` call per budget in the list, exactly what
`render`/`next` perform, concatenating the texts and summing the
resolver counts) produces the unlimited run's text and resolver count. -/
theorem renderSchedule_sound : ∀ (ks : List Nat) (f : Nat) t st t₂ r₂ c₂ s c,
    renderImpl f t none st none = .ok (t₂, r₂, c₂) →
    renderSchedule ks f t st = .ok (s, c) →
    s = r₂.text ∧ c = c₂ := by
  intro ks
  induction ks with
  | nil =>
    intro f t st t₂ r₂ c₂ s c _ hs
    exact absurd hs (by simp [renderSchedule])
  | cons k ks ih =>
    intro f t st t₂ r₂ c₂ s c hfull hs
    simp only [renderSchedule] at hs
    cases hp : renderImpl f t (some k) st none with
    | error e =>
      rw [hp] at hs
      exact (Except.noConfusion hs)
    | ok out =>
      obtain ⟨t₁, r₁, c₁⟩ := out
      rw [hp] at hs
      simp only [] at hs
      obtain ⟨hdone, hnotdone⟩ :=
        renderImpl_decomp f t k st none t₁ r₁ c₁ t₂ r₂ c₂ hp hfull
      by_cases hd : r₁.done = true
      · rw [if_pos hd] at hs
        obtain ⟨hT, hP, hC⟩ := hdone hd
        obtain ⟨hs1, hs2⟩ := by simpa using hs
        exact ⟨by rw [← hs1, hT], by rw [← hs2, hC]⟩
      · rw [if_neg hd] at hs
        obtain ⟨t₃, r₃, c₃, hres, hT, hP, hC⟩ :=
          hnotdone (Bool.eq_false_iff.mpr hd)
        cases hrest : renderSchedule ks f t₁ st with
        | error e =>
          rw [hrest] at hs
          exact (Except.noConfusion hs)
        | ok sc =>
          obtain ⟨s2, c2⟩ := sc
          rw [hrest] at hs
          simp only [] at hs
          obtain ⟨hs1, hs2⟩ := by simpa using hs
          obtain ⟨ih1, ih2⟩ := ih f t₁ st t₃ r₃ c₃ s2 c2 hres hrest
          constructor
          · rw [← hs1, ih1, hT]
          · rw [← hs2, ih2, hC]

/-- Completeness of uniform budget schedules: whenever the unlimited run
succeeds, some finite number of steps at any fixed positive budget `k`
completes the render with exactly the unlimited text and resolver
count.  Induction on a bound for the remaining full text length, which
shrinks at every suspension because suspended steps emit nonempty
text. -/
theorem renderSchedule_exists : ∀ (n : Nat) (f : Nat) t st t₂ r₂ c₂ (k : Nat),
    r₂.text.length ≤ n →
    renderImpl f t none st none = .ok (t₂, r₂, c₂) →
    1 ≤ k →
    ∃ m, renderSchedule (List.replicate m k) f t st = .ok (r₂.text, c₂) := by
  intro n
  induction n with
  | zero =>
    intro f t st t₂ r₂ c₂ k hlen hfull hk
    obtain ⟨⟨t₁, r₁, c₁⟩, hp⟩ := renderImpl_success f t st none t₂ r₂ c₂ hfull k
    obtain ⟨hdone, hnotdone⟩ :=
      renderImpl_decomp f t k st none t₁ r₁ c₁ t₂ r₂ c₂ hp hfull
    by_cases hd : r₁.done = true
    · refine ⟨1, ?_⟩
      obtain ⟨hT, hP, hC⟩ := hdone hd
      simp only [List.replicate, renderSchedule]
      rw [hp]
      simp only []
      rw [if_pos hd, hT, hC]
    · obtain ⟨t₃, r₃, c₃, hres, hT, hP, hC⟩ := hnotdone (Bool.eq_false_iff.mpr hd)
      have hne := renderImpl_nonempty f t k st none t₁ r₁ c₁ hk hp
        (Bool.eq_false_iff.mpr hd)
      have : r₁.text.length = 0 := by
        have h2 : r₂.text.length = 0 := Nat.le_zero.mp hlen
        rw [hT, String.length_append] at h2
        omega
      exact absurd (str_empty_of_length_zero _ this) hne
  | succ n ih =>
    intro f t st t₂ r₂ c₂ k hlen hfull hk
    obtain ⟨⟨t₁, r₁, c₁⟩, hp⟩ := renderImpl_success f t st none t₂ r₂ c₂ hfull k
    obtain ⟨hdone, hnotdone⟩ :=
      renderImpl_decomp f t k st none t₁ r₁ c₁ t₂ r₂ c₂ hp hfull
    by_cases hd : r₁.done = true
    · refine ⟨1, ?_⟩
      obtain ⟨hT, hP, hC⟩ := hdone hd
      simp only [List.replicate, renderSchedule]
      rw [hp]
      simp only []
      rw [if_pos hd, hT, hC]
    · obtain ⟨t₃, r₃, c₃, hres, hT, hP, hC⟩ := hnotdone (Bool.eq_false_iff.mpr hd)
      have hne := renderImpl_nonempty f t k st none t₁ r₁ c₁ hk hp
        (Bool.eq_false_iff.mpr hd)
      have hpos : 0 < r₁.text.length := by
        cases hz : r₁.text.length with
        | zero => exact absurd (str_empty_of_length_zero _ hz) hne
        | succ m => exact Nat.succ_pos m
      have hlen3 : r₃.text.length ≤ n := by
        have h2 := hlen
        rw [hT, String.length_append] at h2
        omega
      obtain ⟨m, hm⟩ := ih f t₁ st t₃ r₃ c₃ k hlen3 hres hk
      refine ⟨m + 1, ?_⟩
      simp only [List.replicate, renderSchedule]
      rw [hp]
      simp only []
      rw [if_neg hd, hm]
      simp only []
      rw [hT, hC]

/-! ## C1 — budget invariance -/

/-- C1: Budget invariance.  If the unlimited render of an element
succeeds, then (a) every successful incremental run — one `renderImpl`
call per budget in the schedule, exactly what `render(element, k)` and
the generator's repeated `next(k)` perform, concatenating the returned
texts — produces markup byte-identical to the unlimited run's text, and
(b) for every fixed positive budget `k` some finite number of steps at
budget `k` completes the render with exactly that text (and the same
resolver count). -/
theorem budget_invariance (f : Nat) (element : Element) (st : Bool)
    (t₂ : Tree) (r₂ : RResult) (c₂ : Nat) (k : Nat)
    (hfull : renderImpl f (initialTree element st) none st none = .ok (t₂, r₂, c₂))
    (hk : 1 ≤ k) :
    (∀ ks s c, renderSchedule ks f (initialTree element st) st = .ok (s, c) →
      s = r₂.text)
    ∧ ∃ m, renderSchedule (List.replicate m k) f (initialTree element st) st
        = .ok (r₂.text, c₂) :=
  ⟨fun ks s c hs => (renderSchedule_sound ks f _ st t₂ r₂ c₂ s c hfull hs).1,
   renderSchedule_exists r₂.text.length f _ st t₂ r₂ c₂ k (Nat.le_refl _) hfull hk⟩

/-- Concrete instance of C1: `<div>{["ab", "cd"]}</div>` rendered with
budget 1 per step produces the same markup as the unlimited render. -/
theorem budget_invariance_witness :
    (∀ ks s c, renderSchedule ks 6 (initialTree exTwoKids false) false = .ok (s, c) →
      s = "<div data-reactroot=\"\"><!-- react-text -->ab<!-- /react-text -->"
        ++ "<!-- react-text -->cd<!-- /react-text --></div>")
    ∧ ∃ m, renderSchedule (List.replicate m 1) 6 (initialTree exTwoKids false) false
        = .ok ("<div data-reactroot=\"\"><!-- react-text -->ab<!-- /react-text -->"
          ++ "<!-- react-text -->cd<!-- /react-text --></div>", 0) :=
  budget_invariance 6 exTwoKids false _ _ _ 1 rfl (by decide)

/-! ## C2 — the resolve-once invariant -/

/-- C2: Resolve-once invariant.  The number of Component-Resolver
invocations (`getNativeComponent` instrumentation: one per component
node resolved) observed by a successful incremental run under any budget
schedule equals the unlimited run's count: resumed `renderImpl` calls
reuse the stored children list and child index, so no tree position is
ever re-resolved, and any schedule reports exactly the N invocations of
a tree with N component nodes. -/
theorem resolve_once (f : Nat) (element : Element) (st : Bool)
    (t₂ : Tree) (r₂ : RResult) (c₂ : Nat)
    (hfull : renderImpl f (initialTree element st) none st none = .ok (t₂, r₂, c₂)) :
    (∀ ks s c, renderSchedule ks f (initialTree element st) st = .ok (s, c) →
      c = c₂)
    ∧ ∀ (k : Nat), 1 ≤ k →
      ∃ m, renderSchedule (List.replicate m k) f (initialTree element st) st
        = .ok (r₂.text, c₂) :=
  ⟨fun ks s c hs => (renderSchedule_sound ks f _ st t₂ r₂ c₂ s c hfull hs).2,
   fun k hk =>
     renderSchedule_exists r₂.text.length f _ st t₂ r₂ c₂ k (Nat.le_refl _) hfull hk⟩

/-- Concrete instance of C2: a tree with exactly two component nodes
reports exactly two resolver invocations under every successful
schedule, including single-character budgets. -/
theorem resolve_once_witness :
    (∀ ks s c, renderSchedule ks 8 (initialTree exNested false) false = .ok (s, c) →
      c = 2)
    ∧ ∀ (k : Nat), 1 ≤ k →
      ∃ m, renderSchedule (List.replicate m k) 8 (initialTree exNested false) false
        = .ok ("<span data-reactroot=\"\">hi</span>", 2) :=
  resolve_once 8 exNested false _ _ _ rfl

/-! ## C6 — suspension only at child boundaries -/

/-- C6: Suspension only at child boundaries.  Whenever a budgeted
`renderImpl` run suspends (`done = false`) on a tree whose unlimited run
succeeds, the text produced so far is exactly the concatenation of the
whole fragments emitted (each piece a complete opening tag or complete
child output — never a split tag and never a partial resolution), those
fragments are a prefix of the unlimited run's fragment sequence, and the
suspended tree stores its materialized children list with the saved
child index pointing at the next unprocessed child. -/
theorem suspension_boundaries (f : Nat) (t : Tree) (k : Nat) (st : Bool)
    (sv : Option (List (Option String))) (t₁ : Tree) (r₁ : RResult) (c₁ : Nat)
    (t₂ : Tree) (r₂ : RResult) (c₂ : Nat)
    (hp : renderImpl f t (some k) st sv = .ok (t₁, r₁, c₁))
    (hfull : renderImpl f t none st sv = .ok (t₂, r₂, c₂))
    (hnd : r₁.done = false) :
    r₁.text = joinPieces r₁.pieces
    ∧ (∃ ps, r₂.pieces = r₁.pieces ++ ps)
    ∧ ∃ i kids, t₁.childIndex = some i ∧ t₁.children = some kids ∧
        i < kids.length := by
  refine ⟨renderImpl_join f t (some k) st sv t₁ r₁ c₁ hp, ?_,
    renderImpl_notdone_shape f t (some k) st sv t₁ r₁ c₁ hp hnd⟩
  obtain ⟨t₃, r₃, c₃, _, _, hP, _⟩ :=
    (renderImpl_decomp f t k st sv t₁ r₁ c₁ t₂ r₂ c₂ hp hfull).2 hnd
  exact ⟨r₃.pieces, hP⟩

/-- Concrete instance of C6: with budget 1, `<div>{["ab", "cd"]}</div>`
suspends right after emitting the opening tag as one whole fragment,
with the child index stored at the first unprocessed child. -/
theorem suspension_boundaries_witness :
    ∃ t₁ r₁ c₁, renderImpl 6 (initialTree exTwoKids false) (some 1) false none
        = .ok (t₁, r₁, c₁)
      ∧ r₁.done = false
      ∧ r₁.text = joinPieces r₁.pieces
      ∧ (∃ ps, ["<div data-reactroot=\"\">",
          "<!-- react-text -->ab<!-- /react-text -->",
          "<!-- react-text -->cd<!-- /react-text -->", "</div>"]
          = r₁.pieces ++ ps)
      ∧ ∃ i kids, t₁.childIndex = some i ∧ t₁.children = some kids ∧
          i < kids.length := by
  refine ⟨_, _, _, rfl, rfl, ?_⟩
  exact suspension_boundaries 6 (initialTree exTwoKids false) 1 false none
    _ _ _ _ _ _ rfl rfl rfl

end ReactSSR

